import Mathlib

/-!
Verification development for the HireReady 2.0 feature-extraction and
role-ranking pipeline (`services/feature_analyzer.py`, `services/role_engine.py`,
and the calibration step of `main.py`).

Modelling conventions:
* Python `dict[str, int]` is an insertion-ordered association list
  `Dict := List (String × Int)`; assignment updates the first matching key in
  place and appends a fresh key at the end, exactly as CPython does.
* Resume text and usernames are `List Char` (Python `str` restricted to its
  character sequence); `str.lower`, `str.strip`, slicing and splitting are
  translated character-wise for the ASCII fragment the patterns use.
* The regular expressions of the source use only literals, character classes,
  `\s* \s+`, optional groups, `\b` and negative lookahead, so they are embedded
  as a small syntax `Rx` together with a backtracking matcher `matchEnds` that
  returns all candidate match ends in Python's preference order (leftmost
  alternative first, greedy quantifiers longest first).  `re.search`,
  `re.findall` and `re.finditer` are derived from it with Python's
  non-overlapping scan semantics.
* Network calls (GitHub repository listing, per-repo commit counts, the
  LeetCode GraphQL response) are modelled by passing the decoded response as an
  explicit argument; `none` stands for the request raising
  `requests.exceptions.RequestException`.
* Python floats are modelled as exact rationals `ℚ`; `int(x)` is truncation
  toward zero and `round(x, 2)` is round-half-to-even at two decimals.
-/

namespace HireReady

set_option maxRecDepth 1000000
set_option maxHeartbeats 4000000

unseal Rat.mul Rat.add Rat.inv Rat.sub

/-! ### Python dictionaries as insertion-ordered association lists -/

/-- Python `dict[str, int]`: insertion-ordered key/value list. -/
abbrev Dict := List (String × Int)

/-- Keys of a dictionary, in insertion order. -/
def keys (d : Dict) : List String := d.map Prod.fst

/-- Python `d[k] = v`: replace the value of the first matching key, or append
the pair at the end when the key is absent. -/
def dset : Dict → String → Int → Dict
  | [], k, v => [(k, v)]
  | (k', v') :: rest, k, v =>
    if k' = k then (k', v) :: rest else (k', v') :: dset rest k v

/-- Python `d.get(k, 0)` (and `d[k]` whenever the key is present). -/
def getD (d : Dict) (k : String) : Int :=
  match d with
  | [] => 0
  | (k', v) :: rest => if k' = k then v else getD rest k

/-- Python `k in d`. -/
def dcontains (d : Dict) (k : String) : Bool :=
  match d with
  | [] => false
  | (k', _) :: rest => k' = k || dcontains rest k

/-- Python `d[k] += 1` (used only on keys that are present). -/
def dinc (d : Dict) (k : String) : Dict := dset d k (getD d k + 1)

theorem getD_dset_self (d : Dict) (k : String) (v : Int) : getD (dset d k v) k = v := by
  induction d with
  | nil => simp [dset, getD]
  | cons p rest ih =>
    obtain ⟨k', v'⟩ := p
    by_cases h : k' = k <;> simp [dset, getD, h, ih]

theorem getD_dset_ne (d : Dict) (k k' : String) (v : Int) (h : k ≠ k') :
    getD (dset d k v) k' = getD d k' := by
  induction d with
  | nil => simp [dset, getD, h]
  | cons p rest ih =>
    obtain ⟨k0, v0⟩ := p
    by_cases h0 : k0 = k
    · subst h0
      simp [dset, getD, h]
    · simp [dset, getD, h0, ih]

theorem keys_nil : keys ([] : Dict) = [] := rfl

theorem keys_cons (k : String) (v : Int) (d : Dict) :
    keys ((k, v) :: d) = k :: keys d := rfl

theorem keys_dset_of_mem (d : Dict) (k : String) (v : Int) (h : k ∈ keys d) :
    keys (dset d k v) = keys d := by
  induction d with
  | nil => simp [keys_nil] at h
  | cons p rest ih =>
    obtain ⟨k0, v0⟩ := p
    by_cases h0 : k0 = k
    · simp [dset, h0, keys_cons]
    · rw [keys_cons, List.mem_cons] at h
      rcases h with h | h
      · exact absurd h.symm h0
      · simp only [dset, if_neg h0, keys_cons, ih h]

theorem dcontains_iff_mem_keys (d : Dict) (k : String) :
    dcontains d k = true ↔ k ∈ keys d := by
  induction d with
  | nil => simp [dcontains, keys_nil]
  | cons p rest ih =>
    obtain ⟨k0, v0⟩ := p
    by_cases h0 : k0 = k
    · simp [dcontains, keys_cons, h0, List.mem_cons]
    · simp only [dcontains, keys_cons, List.mem_cons]
      simp [h0, ih]
      exact fun hh => absurd hh.symm h0

theorem getD_eq_zero_of_not_mem (d : Dict) (k : String) (h : k ∉ keys d) :
    getD d k = 0 := by
  induction d with
  | nil => rfl
  | cons p rest ih =>
    obtain ⟨k0, v0⟩ := p
    rw [keys_cons, List.mem_cons] at h
    push_neg at h
    simp [getD, Ne.symm h.1, ih h.2]

/-! ### Character-level helpers (ASCII fragment of Python `str`) -/

/-- Python `\s` (ASCII scope): space, tab, newline, vertical tab, form feed,
carriage return. -/
def wsChars : List Char := [' ', '\t', '\n', (Char.ofNat 11), (Char.ofNat 12), '\r']

/-- Whitespace test used by `str.strip()` (ASCII scope). -/
def pyIsSpace (c : Char) : Bool := c ∈ wsChars

/-- Python `\w` (ASCII scope): letters, digits, underscore. -/
def isWordChar (c : Char) : Bool :=
  ('a' ≤ c && c ≤ 'z') || ('A' ≤ c && c ≤ 'Z') || ('0' ≤ c && c ≤ '9') || c = '_'

/-- ASCII lowering of one character, as `str.lower()` does on ASCII input. -/
def pyLowerChar (c : Char) : Char :=
  if 'A' ≤ c && c ≤ 'Z' then Char.ofNat (c.toNat + 32) else c

/-- Python `str.lower()` (ASCII scope). -/
def pyLower (l : List Char) : List Char := l.map pyLowerChar

/-- Drop trailing whitespace. -/
def rtrimWs (l : List Char) : List Char :=
  (l.reverse.dropWhile pyIsSpace).reverse

/-- Python `str.strip()` with no argument: drop whitespace from both ends. -/
def pyStrip (l : List Char) : List Char :=
  rtrimWs (l.dropWhile pyIsSpace)

/-- Python `str.rstrip("/")`. -/
def rstripSlash (l : List Char) : List Char :=
  (l.reverse.dropWhile (fun c => c = '/')).reverse

/-- Python slicing `s[a:b]` for `0 ≤ a, b` (clamped at the ends). -/
def slice (l : List Char) (a b : Nat) : List Char := (l.take b).drop a

/-- Python substring membership `needle in hay`. -/
def containsSub (needle hay : List Char) : Bool :=
  (List.range (hay.length + 1)).any fun i => needle.isPrefixOf (hay.drop i)

/-- Python string comparison `a < b` (lexicographic on code points). -/
def lexLt : List Char → List Char → Bool
  | [], [] => false
  | [], _ :: _ => true
  | _ :: _, [] => false
  | a :: as, b :: bs => if a < b then true else if b < a then false else lexLt as bs

/-! ### A small regular-expression syntax

Exactly the constructs occurring in the source's patterns: character literals,
character classes, sequencing, alternation, optional groups, `\s*`-style starred
classes, `\s+`-style plus classes, the word boundary `\b` and negative
lookahead `(?! ...)`. -/

inductive Rx where
  | eps
  | lit (c : Char)
  | cls (cs : List Char)
  | seq (a b : Rx)
  | alt (a b : Rx)
  | opt (r : Rx)
  | starCls (cs : List Char)
  | plusCls (cs : List Char)
  | bnd
  | nla (r : Rx)

/-- Word boundary: one side is a word character, the other is not (a missing
neighbour counts as non-word). -/
def boundary (prev : Option Char) (s : List Char) : Bool :=
  (match prev with | none => false | some c => isWordChar c)
    != (match s with | [] => false | c :: _ => isWordChar c)

/-- All ways a greedy run of class characters can end, longest first.  Each
result is the character preceding the remaining suffix together with that
suffix. -/
def clsSplits (cs : List Char) : Option Char → List Char → List (Option Char × List Char)
  | prev, [] => [(prev, [])]
  | prev, c :: rest =>
    if c ∈ cs then clsSplits cs (some c) rest ++ [(prev, c :: rest)]
    else [(prev, c :: rest)]

/-- All candidate match ends of a pattern against a suffix, in Python's
backtracking preference order (first alternative first, greedy quantifiers
longest first).  `prev` is the character immediately before the suffix, used by
`\b`.  A nonempty result means the pattern matches here, and the head is the
end Python's engine reports. -/
def matchEnds : Rx → Option Char → List Char → List (Option Char × List Char)
  | .eps, prev, s => [(prev, s)]
  | .lit _, _, [] => []
  | .lit c, _, a :: rest => if a = c then [(some a, rest)] else []
  | .cls _, _, [] => []
  | .cls cs, _, a :: rest => if a ∈ cs then [(some a, rest)] else []
  | .seq r1 r2, prev, s =>
    (matchEnds r1 prev s).flatMap fun pr => matchEnds r2 pr.1 pr.2
  | .alt r1 r2, prev, s => matchEnds r1 prev s ++ matchEnds r2 prev s
  | .opt r, prev, s => matchEnds r prev s ++ [(prev, s)]
  | .starCls cs, prev, s => clsSplits cs prev s
  | .plusCls _, _, [] => []
  | .plusCls cs, _, a :: rest => if a ∈ cs then clsSplits cs (some a) rest else []
  | .bnd, prev, s => if boundary prev s then [(prev, s)] else []
  | .nla r, prev, s => if matchEnds r prev s = [] then [(prev, s)] else []

/-- One step of `re.search`: try the current position, else advance one
character. -/
def searchAux (r : Rx) : Option Char → List Char → Bool
  | prev, [] => !(matchEnds r prev []).isEmpty
  | prev, c :: rest => !(matchEnds r prev (c :: rest)).isEmpty || searchAux r (some c) rest

/-- Python `re.search(r, s) is not None`. -/
def reSearch (r : Rx) (s : List Char) : Bool := searchAux r none s

/-- Scanner behind `re.finditer` / `re.findall`: left to right, taking the
engine's preferred match at each position, continuing after the matched span
(advancing one character past an empty match), returning `(start, end)`
spans. -/
def scanAux (r : Rx) : Option Char → List Char → Nat → Nat → List (Nat × Nat)
  | _, _, _, 0 => []
  | prev, s, pos, fuel + 1 =>
    match matchEnds r prev s with
    | [] =>
      match s with
      | [] => []
      | c :: rest => scanAux r (some c) rest (pos + 1) fuel
    | (p', s') :: _ =>
      let len := s.length - s'.length
      if len = 0 then
        match s with
        | [] => [(pos, pos)]
        | c :: rest => (pos, pos) :: scanAux r (some c) rest (pos + 1) fuel
      else (pos, pos + len) :: scanAux r p' s' (pos + len) fuel

/-- Spans of the non-overlapping matches of `r` in `s` (`re.finditer`). -/
def scan (r : Rx) (s : List Char) : List (Nat × Nat) :=
  scanAux r none s 0 (s.length + 1)

/-- Python `len(re.findall(r, s))` (the patterns counted contain no capturing
groups). -/
def countMatches (r : Rx) (s : List Char) : Nat := (scan r s).length

/-- Literal word: sequence of character literals. -/
def strRx (w : List Char) : Rx := w.foldr (fun c r => Rx.seq (Rx.lit c) r) Rx.eps

/-- Literal word from a string literal. -/
def W (s : String) : Rx := strRx s.data

/-- Sequence a list of patterns. -/
def rxs (l : List Rx) : Rx := l.foldr Rx.seq Rx.eps

/-- A pattern that never matches (used to fold alternation lists). -/
def rxFail : Rx := Rx.nla Rx.eps

/-- Alternation of a list of patterns, first one preferred. -/
def altList (l : List Rx) : Rx := l.foldr Rx.alt rxFail

/-- Shorthand for `\b`. -/
def wb : Rx := Rx.bnd

/-- Shorthand for `\s*`. -/
def ws0 : Rx := Rx.starCls wsChars

/-- Shorthand for `\s+`. -/
def ws1 : Rx := Rx.plusCls wsChars

/-- Shorthand for the class `[\s\-]`. -/
def wsDash : Rx := Rx.cls (wsChars ++ ['-'])

/-! ### `FEATURE_COLUMNS` and `initialize_feature_vector` -/

/-- Canonical list of every feature the ML model expects
(`feature_analyzer.FEATURE_COLUMNS`, 45 skills + 6 internships + 5 projects +
3 GitHub + 5 LeetCode = 64). -/
def FEATURE_COLUMNS : List String := [
  ("Python"), ("Java"), ("C++"), ("C"), ("JavaScript"), ("Go"), ("Rust"), ("TypeScript"),
  ("SQL"), ("Node"), ("Spring"), ("Django"), ("Flask"), ("FastAPI"), ("Express"),
  ("React"), ("Angular"), ("Vue"), ("NextJS"), ("HTML"), ("CSS"),
  ("TensorFlow"), ("PyTorch"),
  ("AWS"), ("Azure"), ("GCP"),
  ("Docker"), ("Kubernetes"), ("CI/CD"),
  ("Scikit"), ("Pandas"), ("NLP"), ("ComputerVision"), ("LLM"), ("PromptEngineering"),
  ("EthicalHacking"), ("Cryptography"), ("NetworkSecurity"),
  ("Android"), ("Flutter"), ("ReactNative"),
  ("OOPS"), ("SystemDesign"), ("DBMS"), ("OS"),
  ("internship_backend"), ("internship_ai"), ("internship_cloud"),
  ("internship_security"), ("internship_mobile"), ("internship_data"),
  ("num_backend_projects"), ("num_ai_projects"), ("num_mobile_projects"),
  ("num_cloud_projects"), ("num_security_projects"),
  ("github_total_repos"), ("github_total_commits"),
  ("open_source_contribution_score"),
  ("leetcode_easy"), ("leetcode_medium"), ("leetcode_hard"),
  ("leetcode_total"), ("leetcode_contest_rating")]

/-- `initialize_feature_vector`: every column set to 0. -/
def initialize_feature_vector : Dict := FEATURE_COLUMNS.map fun col => (col, 0)

/-! ### `_SKILL_PATTERNS` (feature name → alias patterns) -/

/-- Skill alias patterns, transcribed regex by regex from
`feature_analyzer._SKILL_PATTERNS` (the text is lowercased before matching, so
the literals are the lowercase pattern literals). -/
def _SKILL_PATTERNS : List (String × List Rx) := [
  (("Python"), [rxs [wb, W ("python"), wb]]),
  (("Java"), [rxs [wb, W ("java"), wb, .nla (rxs [ws0, W ("script")])]]),
  (("C++"), [rxs [wb, W ("c++"), wb], rxs [wb, W ("cpp"), wb]]),
  (("C"), [rxs [wb, W ("c"), wb,
    .nla (altList [W ("++"), W ("#"), W ("sharp")])]]),
  (("JavaScript"), [rxs [wb, W ("javascript"), wb], rxs [wb, W ("js"), wb]]),
  (("Go"), [rxs [wb, W ("golang"), wb],
    rxs [wb, W ("go"), wb, .opt (rxs [ws1, W ("lang")]), wb]]),
  (("Rust"), [rxs [wb, W ("rust"), wb]]),
  (("TypeScript"), [rxs [wb, W ("typescript"), wb], rxs [wb, W ("ts"), wb]]),
  (("SQL"), [rxs [wb, W ("sql"), wb], rxs [wb, W ("mysql"), wb],
    rxs [wb, W ("postgresql"), wb], rxs [wb, W ("postgres"), wb]]),
  (("Node"), [rxs [wb, W ("node"), .opt (.lit '.'), W ("js"), wb],
    rxs [wb, W ("node"), wb]]),
  (("Spring"), [rxs [wb, W ("spring"), wb, .opt (rxs [ws0, W ("boot")])]]),
  (("Django"), [rxs [wb, W ("django"), wb]]),
  (("Flask"), [rxs [wb, W ("flask"), wb]]),
  (("FastAPI"), [rxs [wb, W ("fastapi"), wb],
    rxs [wb, W ("fast"), ws0, W ("api"), wb]]),
  (("Express"), [rxs [wb, W ("express"), .opt (.lit '.'), W ("js"), wb],
    rxs [wb, W ("express"), wb]]),
  (("React"), [rxs [wb, W ("react"), .opt (.lit '.'), W ("js"), wb],
    rxs [wb, W ("react"), wb, .nla (rxs [ws0, W ("native")])]]),
  (("Angular"), [rxs [wb, W ("angular"), wb]]),
  (("Vue"), [rxs [wb, W ("vue"), .opt (.lit '.'), W ("js"), wb],
    rxs [wb, W ("vue"), wb]]),
  (("NextJS"), [rxs [wb, W ("next"), .opt (.lit '.'), W ("js"), wb],
    rxs [wb, W ("nextjs"), wb]]),
  (("HTML"), [rxs [wb, W ("html"), .opt (.lit '5'), wb]]),
  (("CSS"), [rxs [wb, W ("css"), .opt (.lit '3'), wb],
    rxs [wb, W ("sass"), wb], rxs [wb, W ("scss"), wb]]),
  (("TensorFlow"), [rxs [wb, W ("tensorflow"), wb], rxs [wb, W ("tf"), wb]]),
  (("PyTorch"), [rxs [wb, W ("pytorch"), wb]]),
  (("Scikit"), [rxs [wb, W ("scikit"), .opt wsDash, W ("learn"), wb],
    rxs [wb, W ("sklearn"), wb], rxs [wb, W ("scikit"), wb]]),
  (("Pandas"), [rxs [wb, W ("pandas"), wb]]),
  (("NLP"), [rxs [wb, W ("nlp"), wb],
    rxs [wb, W ("natural"), ws1, W ("language"), ws1, W ("processing"), wb]]),
  (("ComputerVision"), [rxs [wb, W ("computer"), ws0, W ("vision"), wb],
    rxs [wb, W ("cv"), wb], rxs [wb, W ("opencv"), wb]]),
  (("LLM"), [rxs [wb, W ("llm"), wb],
    rxs [wb, W ("large"), ws1, W ("language"), ws1, W ("model"), wb]]),
  (("PromptEngineering"), [rxs [wb, W ("prompt"), ws0, W ("engineering"), wb]]),
  (("AWS"), [rxs [wb, W ("aws"), wb],
    rxs [wb, W ("amazon"), ws1, W ("web"), ws1, W ("services"), wb]]),
  (("Azure"), [rxs [wb, W ("azure"), wb]]),
  (("GCP"), [rxs [wb, W ("gcp"), wb], rxs [wb, W ("google"), ws1, W ("cloud"), wb]]),
  (("Docker"), [rxs [wb, W ("docker"), wb]]),
  (("Kubernetes"), [rxs [wb, W ("kubernetes"), wb], rxs [wb, W ("k8s"), wb]]),
  (("CI/CD"), [rxs [wb, W ("ci"), ws0, .lit '/', ws0, W ("cd"), wb],
    rxs [wb, W ("cicd"), wb],
    rxs [wb, W ("continuous"), ws1, W ("integration"), wb],
    rxs [wb, W ("continuous"), ws1, W ("deployment"), wb],
    rxs [wb, W ("continuous"), ws1, W ("delivery"), wb],
    rxs [wb, W ("github"), ws1, W ("actions"), wb],
    rxs [wb, W ("jenkins"), wb]]),
  (("EthicalHacking"), [rxs [wb, W ("ethical"), ws0, W ("hacking"), wb],
    rxs [wb, W ("penetration"), ws0, W ("testing"), wb],
    rxs [wb, W ("pen"), ws0, W ("test"), wb]]),
  (("Cryptography"), [rxs [wb, W ("cryptography"), wb], rxs [wb, W ("crypto"), wb]]),
  (("NetworkSecurity"), [rxs [wb, W ("network"), ws0, W ("security"), wb],
    rxs [wb, W ("firewall"), wb],
    rxs [wb, W ("intrusion"), ws1, W ("detection"), wb]]),
  (("Android"), [rxs [wb, W ("android"), wb]]),
  (("Flutter"), [rxs [wb, W ("flutter"), wb]]),
  (("ReactNative"), [rxs [wb, W ("react"), ws0, W ("native"), wb]]),
  (("OOPS"), [rxs [wb, W ("oops"), wb],
    rxs [wb, W ("object"), wsDash, W ("oriented"), wb], rxs [wb, W ("oop"), wb]]),
  (("SystemDesign"), [rxs [wb, W ("system"), ws0, W ("design"), wb],
    rxs [wb, W ("hld"), wb], rxs [wb, W ("lld"), wb]]),
  (("DBMS"), [rxs [wb, W ("dbms"), wb],
    rxs [wb, W ("database"), ws1, W ("management"), wb], rxs [wb, W ("rdbms"), wb]]),
  (("OS"), [rxs [wb, W ("operating"), ws0, W ("system"), wb]])]

/-- `_INTERNSHIP_PATTERNS` (internship domain keywords → feature column). -/
def _INTERNSHIP_PATTERNS : List (String × List Rx) := [
  (("internship_backend"), [rxs [wb, W ("backend"), wb],
    rxs [wb, W ("back"), wsDash, W ("end"), wb],
    rxs [wb, W ("server"), wsDash, W ("side"), wb],
    rxs [wb, W ("full"), .opt wsDash, W ("stack"), wb],
    rxs [wb, W ("web"), ws1, W ("develop"), wb]]),
  (("internship_ai"), [rxs [wb, W ("ai"), wb],
    rxs [wb, W ("artificial"), ws1, W ("intelligence"), wb],
    rxs [wb, W ("machine"), ws1, W ("learning"), wb], rxs [wb, W ("ml"), wb],
    rxs [wb, W ("data"), ws1, W ("science"), wb],
    rxs [wb, W ("deep"), ws1, W ("learning"), wb]]),
  (("internship_cloud"), [rxs [wb, W ("cloud"), wb], rxs [wb, W ("devops"), wb],
    rxs [wb, W ("infrastructure"), wb], rxs [wb, W ("sre"), wb]]),
  (("internship_security"), [rxs [wb, W ("security"), wb],
    rxs [wb, W ("cyber"), wb], rxs [wb, W ("soc"), wb]]),
  (("internship_mobile"), [rxs [wb, W ("mobile"), wb], rxs [wb, W ("android"), wb],
    rxs [wb, W ("ios"), wb], rxs [wb, W ("flutter"), wb],
    rxs [wb, W ("react"), ws0, W ("native"), wb]]),
  (("internship_data"), [rxs [wb, W ("data"), ws1, W ("engineer"), wb],
    rxs [wb, W ("data"), ws1, W ("analy"), wb], rxs [wb, W ("etl"), wb],
    rxs [wb, W ("data"), ws1, W ("pipeline"), wb],
    rxs [wb, W ("big"), ws0, W ("data"), wb]])]

/-- `_PROJECT_PATTERNS` (project domain keywords → feature column). -/
def _PROJECT_PATTERNS : List (String × List Rx) := [
  (("num_backend_projects"), [rxs [wb, W ("backend"), wb],
    rxs [wb, W ("rest"), ws0, W ("api"), wb],
    rxs [wb, W ("web"), ws1, W ("app"), wb], rxs [wb, W ("server"), wb],
    rxs [wb, W ("microservice"), wb], rxs [wb, W ("crud"), wb]]),
  (("num_ai_projects"), [rxs [wb, W ("machine"), ws1, W ("learning"), wb],
    rxs [wb, W ("ml"), wb], rxs [wb, W ("ai"), wb],
    rxs [wb, W ("deep"), ws1, W ("learning"), wb],
    rxs [wb, W ("neural"), ws1, W ("net"), wb], rxs [wb, W ("nlp"), wb],
    rxs [wb, W ("computer"), ws0, W ("vision"), wb],
    rxs [wb, W ("classifi"), wb], rxs [wb, W ("predict"), wb]]),
  (("num_mobile_projects"), [rxs [wb, W ("mobile"), ws1, W ("app"), wb],
    rxs [wb, W ("android"), ws1, W ("app"), wb],
    rxs [wb, W ("ios"), ws1, W ("app"), wb], rxs [wb, W ("flutter"), wb],
    rxs [wb, W ("react"), ws0, W ("native"), wb]]),
  (("num_cloud_projects"), [rxs [wb, W ("cloud"), wb], rxs [wb, W ("aws"), wb],
    rxs [wb, W ("azure"), wb], rxs [wb, W ("gcp"), wb],
    rxs [wb, W ("deployed"), ws1, W ("on"), wb], rxs [wb, W ("terraform"), wb],
    rxs [wb, W ("docker"), wb], rxs [wb, W ("kubernetes"), wb]]),
  (("num_security_projects"), [rxs [wb, W ("security"), wb],
    rxs [wb, W ("ethical"), ws0, W ("hack"), wb],
    rxs [wb, W ("vulnerability"), wb], rxs [wb, W ("penetration"), wb],
    rxs [wb, W ("cryptograph"), wb]])]

/-- The pattern list of the `num_ai_projects` row of `_PROJECT_PATTERNS`. -/
def aiPats : List Rx := (List.lookup ("num_ai_projects") _PROJECT_PATTERNS).getD []

/-! ### `extract_resume_features` -/

/-- Binary-flag detection loop: for each feature, set the flag to 1 as soon as
one of its patterns is found in the context (the `break` after the first hit is
an `any`). -/
def flagLoop (tbl : List (String × List Rx)) (ctx : List Char) (d : Dict) : Dict :=
  tbl.foldl (fun acc e => if e.2.any (fun p => reSearch p ctx) then dset acc e.1 1 else acc) d

/-- Total number of pattern occurrences for one feature
(`count += len(re.findall(pattern, project_context))`). -/
def countAll (pats : List Rx) (ctx : List Char) : Nat :=
  (pats.map fun p => countMatches p ctx).sum

/-- Project-count loop: every project feature is set to its capped match
count. -/
def countLoop (tbl : List (String × List Rx)) (ctx : List Char) (d : Dict) : Dict :=
  tbl.foldl (fun acc e => dset acc e.1 (Int.ofNat (min (countAll e.2 ctx) 10))) d

/-- Pattern `\bintern\b`. -/
def rxIntern : Rx := rxs [wb, W ("intern"), wb]

/-- Pattern `\bexperience\b`. -/
def rxExperience : Rx := rxs [wb, W ("experience"), wb]

/-- Pattern `\bproject\b`. -/
def rxProject : Rx := rxs [wb, W ("project"), wb]

/-- Pattern `\bprojects\b`. -/
def rxProjects : Rx := rxs [wb, W ("projects"), wb]

/-- Concatenated ±100-character windows around the given anchor indices, each
window followed by one space. -/
def windows100 (idxs : List Nat) (lower : List Char) : List Char :=
  idxs.foldl (fun acc i => acc ++ slice lower (i - 100) (min lower.length (i + 100)) ++ [' ']) []

/-- Concatenated look-ahead windows of `n` characters starting at the given
match ends, each window followed by one space. -/
def windowsAfter (ends : List Nat) (n : Nat) (lower : List Char) : List Char :=
  ends.foldl (fun acc e => acc ++ slice lower e (min lower.length (e + n)) ++ [' ']) []

/-- Internship detection context: ±100-character windows around every
`\bintern\b` hit; if there are none and `experience` occurs, 500-character
windows after every `\bexperience\b` hit. -/
def internContext (lower_text : List Char) : List Char :=
  let intern_indices := (scan rxIntern lower_text).map Prod.fst
  let intern_context := windows100 intern_indices lower_text
  if intern_context = [] ∧ containsSub (("experience").data) lower_text then
    windowsAfter ((scan rxExperience lower_text).map Prod.snd) 500 lower_text
  else intern_context

/-- Project counting context: ±100-character windows around every
`\bproject\b` hit; if there are none and `projects` occurs, 500-character
windows after every `\bprojects\b` hit. -/
def projectContext (lower_text : List Char) : List Char :=
  let project_indices := (scan rxProject lower_text).map Prod.fst
  let project_context := windows100 project_indices lower_text
  if project_context = [] ∧ containsSub (("projects").data) lower_text then
    windowsAfter ((scan rxProjects lower_text).map Prod.snd) 500 lower_text
  else project_context

/-- `extract_resume_features`: keyword extraction from resume text.  Empty or
whitespace-only text short-circuits to the zero vector; otherwise the
lowercased text is scanned for skill flags, internship-domain flags (inside
`internContext`) and capped project counts (inside `projectContext`). -/
def extract_resume_features (text : List Char) : Dict :=
  let features := initialize_feature_vector
  if text = [] ∨ pyStrip text = [] then features
  else
    let lower_text := pyLower text
    let features := flagLoop _SKILL_PATTERNS lower_text features
    let features := flagLoop _INTERNSHIP_PATTERNS (internContext lower_text) features
    countLoop _PROJECT_PATTERNS (projectContext lower_text) features

/-! ### `extract_github_features` -/

/-- `_LANGUAGE_TO_CATEGORY`: GitHub language field → project category column. -/
def _LANGUAGE_TO_CATEGORY : List (String × String) := [
  (("Java"), ("num_backend_projects")), (("Go"), ("num_backend_projects")),
  (("Ruby"), ("num_backend_projects")), (("PHP"), ("num_backend_projects")),
  (("Elixir"), ("num_backend_projects")), (("Scala"), ("num_backend_projects")),
  (("Rust"), ("num_backend_projects")), (("C#"), ("num_backend_projects")),
  (("Jupyter Notebook"), ("num_ai_projects")), (("R"), ("num_ai_projects")),
  (("Kotlin"), ("num_mobile_projects")), (("Swift"), ("num_mobile_projects")),
  (("Dart"), ("num_mobile_projects")), (("Objective-C"), ("num_mobile_projects")),
  (("HCL"), ("num_cloud_projects")), (("Dockerfile"), ("num_cloud_projects")),
  (("Assembly"), ("num_security_projects"))]

/-- `_AMBIGUOUS_LANGUAGES`. -/
def _AMBIGUOUS_LANGUAGES : List String :=
  [("Python"), ("JavaScript"), ("TypeScript"), ("C"), ("C++"), ("Shell")]

/-- `_REPO_HINT_PATTERNS`: name/description hint regex → category, in source
(dict insertion) order.  These patterns carry no word boundaries. -/
def _REPO_HINT_PATTERNS : List (Rx × String) := [
  (altList [W ("ml"), rxs [W ("machine"), .opt wsDash, W ("learn")],
    rxs [W ("deep"), .opt wsDash, W ("learn")], W ("neural"), W ("nlp"), W ("cv"),
    W ("vision"), W ("ai"), W ("tensor"), W ("torch"), W ("model")],
   ("num_ai_projects")),
  (altList [W ("mobile"), W ("android"), W ("ios"), W ("flutter"),
    rxs [W ("react"), .opt wsDash, W ("native")], W ("app")],
   ("num_mobile_projects")),
  (altList [W ("cloud"), W ("aws"), W ("azure"), W ("gcp"), W ("terraform"),
    W ("infra"), W ("deploy"), W ("devops"), W ("k8s"), W ("kubernetes")],
   ("num_cloud_projects")),
  (altList [W ("secur"), W ("hack"), W ("pentest"), W ("vuln"), W ("crypt"),
    W ("firewall")],
   ("num_security_projects"))]

/-- One decoded GitHub repository object, with exactly the fields the source
consumes (`repo.get(...)`). -/
structure Repo where
  language : Option String
  name : List Char
  description : Option (List Char)
  fork : Bool
  stargazers_count : Nat
  forks_count : Nat
  pushed_at : List Char
  full_name : String
deriving DecidableEq

/-- Category of a repo language via `_LANGUAGE_TO_CATEGORY` when the language
is truthy and present in the table (`if language and language in ...`). -/
def langCategory (lang : Option String) : Option String :=
  match lang with
  | none => none
  | some l => if l = "" then none else List.lookup l _LANGUAGE_TO_CATEGORY

/-- Python `language in _AMBIGUOUS_LANGUAGES or language is None`. -/
def ambiguousOrNone (lang : Option String) : Bool :=
  match lang with
  | none => true
  | some l => _AMBIGUOUS_LANGUAGES.contains l

/-- Python `language in _AMBIGUOUS_LANGUAGES` (false for `None`). -/
def isAmbiguous (lang : Option String) : Bool :=
  match lang with
  | none => false
  | some l => _AMBIGUOUS_LANGUAGES.contains l

/-- Repo classification step of the loop in `extract_github_features`:
language table first, then the name/description hint patterns (first match
wins), then the backend default for ambiguous languages. -/
def classifyRepo (d : Dict) (r : Repo) : Dict :=
  let name_desc := pyLower (r.name ++ ' ' :: (r.description.getD []))
  match langCategory r.language with
  | some cat => dinc d cat
  | none =>
    if ambiguousOrNone r.language then
      match _REPO_HINT_PATTERNS.find? (fun pc => reSearch pc.1 name_desc) with
      | some pc => dinc d pc.2
      | none => if isAmbiguous r.language then dinc d ("num_backend_projects") else d
    else d

/-- Python `int(x)` on a float: truncation toward zero. -/
def pyInt (q : ℚ) : Int := q.num.tdiv q.den

/-- Stable insert for descending sort by a string key (ties keep the earlier
element first), as `sorted(..., reverse=True)` behaves. -/
def insertByDesc (key : α → List Char) (a : α) : List α → List α
  | [] => [a]
  | b :: rest =>
    if lexLt (key a) (key b) then b :: insertByDesc key a rest else a :: b :: rest

/-- Stable descending sort by a string key (`sorted(repos, key=..., reverse=True)`). -/
def sortDescBy (key : α → List Char) (l : List α) : List α :=
  l.foldr (insertByDesc key) []

/-- The GitHub URL host variants stripped by `_clean_github_username`, in
source order. -/
def ghPrefixes : List (List Char) :=
  [("https://github.com/").data, ("http://github.com/").data, ("github.com/").data]

/-- The LeetCode URL host variants stripped by `_clean_leetcode_username`, in
source order. -/
def lcPrefixes : List (List Char) :=
  [("https://leetcode.com/u/").data, ("https://leetcode.com/").data,
   ("http://leetcode.com/u/").data, ("http://leetcode.com/").data,
   ("leetcode.com/u/").data, ("leetcode.com/").data]

/-- `_clean_github_username`: strip whitespace, trailing slashes and a GitHub
URL host, then keep the first path segment. -/
def _clean_github_username (raw : List Char) : List Char :=
  let raw1 := rstripSlash (pyStrip raw)
  let raw2 :=
    match ghPrefixes.find? (fun p => p.isPrefixOf (pyLower raw1)) with
    | some p => raw1.drop p.length
    | none => raw1
  pyStrip (raw2.takeWhile (fun c => c ≠ '/'))

/-- `_clean_leetcode_username` (analogous, with the LeetCode prefixes). -/
def _clean_leetcode_username (raw : List Char) : List Char :=
  let raw1 := rstripSlash (pyStrip raw)
  let raw2 :=
    match lcPrefixes.find? (fun p => p.isPrefixOf (pyLower raw1)) with
    | some p => raw1.drop p.length
    | none => raw1
  pyStrip (raw2.takeWhile (fun c => c ≠ '/'))

/-- Total commit estimate: sum of the per-repo commit counts of the 10 most
recently pushed repositories (skipping repos with an empty `full_name`),
extrapolated proportionally when the user has more than 10 repositories. -/
def githubCommitTotal (repos : List Repo) (commitCountOf : String → Nat) : Int :=
  let sorted_repos := (sortDescBy Repo.pushed_at repos).take 10
  let commitSum : Nat :=
    (sorted_repos.map fun r =>
      if r.full_name ≠ "" then commitCountOf r.full_name else 0).sum
  if repos.length > 10 ∧ sorted_repos.length > 0 then
    pyInt (((commitSum : ℚ) / (sorted_repos.length : ℚ)) * (repos.length : ℚ))
  else Int.ofNat commitSum

/-- Contribution score
`non_fork_count + total_stars*2 + total_forks*3 + int(total_commits/10)`. -/
def githubContributionScore (repos : List Repo) (total_commits : Int) : Int :=
  Int.ofNat (repos.filter fun r => !r.fork).length +
    Int.ofNat (repos.map Repo.stargazers_count).sum * 2 +
    Int.ofNat (repos.map Repo.forks_count).sum * 3 +
    pyInt ((total_commits : ℚ) / 10)

/-- `extract_github_features`.  The HTTP layer is modelled by passing the
decoded repository list (`none` = the request raised) and the per-repository
commit count resolver (`_fetch_repo_commit_count`, which itself returns 0 on
failure, hence an arbitrary `Nat`-valued function).  Repo classification, the
repo/star/fork accumulators, the commit estimate and the contribution score
follow the source loop. -/
def extract_github_features (username : List Char) (api : Option (List Repo))
    (commitCountOf : String → Nat) : Dict :=
  let features := initialize_feature_vector
  if username = [] ∨ pyStrip username = [] then features
  else
    match api with
    | none => features
    | some repos =>
      let features := dset features ("github_total_repos") (Int.ofNat repos.length)
      let features := repos.foldl classifyRepo features
      let total_commits := githubCommitTotal repos commitCountOf
      let features := dset features ("github_total_commits") total_commits
      dset features ("open_source_contribution_score")
        (githubContributionScore repos total_commits)

/-! ### `extract_leetcode_features` -/

/-- One entry of `acSubmissionNum`. -/
structure LCEntry where
  difficulty : String
  count : Int
deriving DecidableEq

/-- Decoded LeetCode GraphQL response: `matchedUser` (with its accepted
submission stats) and the contest rating (absent or `null` → `none`). -/
structure LCData where
  matchedUser : Option (List LCEntry)
  contestRating : Option ℚ
deriving DecidableEq

/-- The `difficulty_map` of the source. -/
def difficulty_map : List (String × String) := [
  (("Easy"), ("leetcode_easy")), (("Medium"), ("leetcode_medium")),
  (("Hard"), ("leetcode_hard"))]

/-- `extract_leetcode_features` (`none` argument = the request raised). -/
def extract_leetcode_features (username : List Char) (api : Option LCData) : Dict :=
  let features := initialize_feature_vector
  if username = [] ∨ pyStrip username = [] then features
  else
    match api with
    | none => features
    | some data =>
      match data.matchedUser with
      | none => features
      | some ac_stats =>
        let features := ac_stats.foldl (fun f entry =>
          match List.lookup entry.difficulty difficulty_map with
          | some col => dset f col entry.count
          | none => f) features
        let features := dset features ("leetcode_total")
          (getD features ("leetcode_easy") + getD features ("leetcode_medium") +
            getD features ("leetcode_hard"))
        match data.contestRating with
        | some r => if r ≠ 0 then dset features ("leetcode_contest_rating") (pyInt r)
                    else features
        | none => features

/-! ### `build_complete_feature_vector` and `_validate_feature_vector` -/

/-- Generic merge loop `for key, value in src.items(): if key in fv: ...`,
parameterised by the per-key combination of old and new value. -/
def mergeWith (combine : String → Int → Int → Int) (fv src : Dict) : Dict :=
  src.foldl (fun acc kv =>
    if dcontains acc kv.1 then dset acc kv.1 (combine kv.1 (getD acc kv.1) kv.2)
    else acc) fv

/-- Key test of the GitHub merge branch:
`key.startswith("num_") or key.startswith("github_") or key == "open_source_contribution_score"`. -/
def additiveKey (k : String) : Bool :=
  (("num_").data).isPrefixOf k.data || (("github_").data).isPrefixOf k.data ||
    k = ("open_source_contribution_score")

/-- Resume merge: direct assignment. -/
def mergeResume (fv src : Dict) : Dict := mergeWith (fun _ _ v => v) fv src

/-- GitHub merge: add for project counts and GitHub metrics, max (OR) for
binary flags. -/
def mergeGithub (fv src : Dict) : Dict :=
  mergeWith (fun k old v => if additiveKey k then old + v else max old v) fv src

/-- LeetCode merge: max for every key. -/
def mergeMax (fv src : Dict) : Dict := mergeWith (fun _ old v => max old v) fv src

/-- The merged dictionary assembled by `build_complete_feature_vector` before
validation. -/
def assembleDict (resume_text github_username leetcode_username : List Char)
    (githubApi : Option (List Repo)) (commitCountOf : String → Nat)
    (leetcodeApi : Option LCData) : Dict :=
  let feature_vector := initialize_feature_vector
  let feature_vector := mergeResume feature_vector (extract_resume_features resume_text)
  let feature_vector :=
    mergeGithub feature_vector (extract_github_features github_username githubApi commitCountOf)
  mergeMax feature_vector (extract_leetcode_features leetcode_username leetcodeApi)

/-- `_validate_feature_vector`: key-set equality with `FEATURE_COLUMNS` and
the key count.  (The `isinstance(value, int)` check cannot fail in this
embedding because the value type is `Int`.) -/
def _validate_feature_vector (d : Dict) : Except String Unit :=
  let missing := FEATURE_COLUMNS.filter fun c => !(keys d).contains c
  let extra := (keys d).filter fun c => !FEATURE_COLUMNS.contains c
  if missing ≠ [] ∨ extra ≠ [] then .error ("Feature vector schema mismatch.")
  else if d.length ≠ FEATURE_COLUMNS.length then .error ("Wrong feature count.")
  else .ok ()

/-- `build_complete_feature_vector`: merge the three partial vectors and
validate; a validation failure propagates as the `ValueError` of the source. -/
def build_complete_feature_vector (resume_text github_username leetcode_username : List Char)
    (githubApi : Option (List Repo)) (commitCountOf : String → Nat)
    (leetcodeApi : Option LCData) : Except String Dict :=
  let fv := assembleDict resume_text github_username leetcode_username
    githubApi commitCountOf leetcodeApi
  match _validate_feature_vector fv with
  | .error e => .error e
  | .ok _ => .ok fv

/-! ### Score calibration and categorisation (`main.run_analysis_pipeline`)

Python floats are modelled as exact rationals; `round(x, 2)` is
round-half-to-even at two decimals. -/

/-- Round to the nearest integer, ties to the even integer (CPython's
`round`). -/
def roundHalfEven (q : ℚ) : ℤ :=
  let f := ⌊q⌋
  let r := q - (f : ℚ)
  if r < 1 / 2 then f
  else if 1 / 2 < r then f + 1
  else if f % 2 = 0 then f else f + 1

/-- Python `round(x, 2)`. -/
def round2 (q : ℚ) : ℚ := (roundHalfEven (q * 100) : ℚ) / 100

/-- `MODEL_MIN` of the calibration step. -/
def MODEL_MIN : ℚ := 6

/-- `MODEL_MAX` of the calibration step. -/
def MODEL_MAX : ℚ := 80

/-- Calibration of the raw model score into the 0–100 display range
(`main.py` lines 173–177): linear rescale, clamp with `max(0, min(100, ·))`,
then round to 2 decimals. -/
def calibrate (raw_score : ℚ) : ℚ :=
  let readiness := (raw_score - MODEL_MIN) / (MODEL_MAX - MODEL_MIN) * 100
  let readiness := max 0 (min 100 readiness)
  round2 readiness

/-- Readiness category thresholds (`main.py` lines 180–185). -/
def categorize (readiness : ℚ) : String :=
  if readiness ≥ 75 then ("Placement Ready")
  else if readiness ≥ 50 then ("Almost Ready")
  else ("Needs Improvement")

/-! ### Role ranking (`services/role_engine.py`) -/

/-- Category weights of one role.  `github`/`leetcode` are optional because
`rank_roles` branches on `"github" in weights` / `"leetcode" in weights`. -/
structure RoleWeights where
  skills : ℚ
  internship : ℚ
  projects : ℚ
  github : Option ℚ
  leetcode : Option ℚ
deriving DecidableEq

/-- One role definition: required skills plus weights. -/
structure RoleConfig where
  required : List String
  weights : RoleWeights
deriving DecidableEq

/-- The required-skill list of the `Java Developer` role. -/
def javaDevRequired : List String :=
  [("Java"), ("Spring"), ("Hibernate"), ("SQL"), ("OOPS")]

/-- The `Java Developer` role definition. -/
def javaDevConfig : RoleConfig :=
  ⟨javaDevRequired, ⟨50/100, 20/100, 15/100, none, some (15/100)⟩⟩

/-- The `Frontend Developer` role definition. -/
def frontendConfig : RoleConfig :=
  ⟨[("React"), ("Angular"), ("Vue"), ("NextJS"), ("HTML"), ("CSS"), ("JavaScript"),
    ("TypeScript")],
   ⟨50/100, 10/100, 20/100, some (10/100), none⟩⟩

/-- `ROLE_DEFINITIONS`, in source order. -/
def ROLE_DEFINITIONS : List (String × RoleConfig) := [
  (("Software Engineer"),
   ⟨[("Python"), ("Java"), ("C++"), ("JavaScript"), ("SQL"), ("Git"), ("DSA"), ("OOPS")],
    ⟨35/100, 20/100, 25/100, none, some (20/100)⟩⟩),
  (("Backend Developer"),
   ⟨[("Java"), ("Python"), ("JavaScript"), ("Spring"), ("Node"), ("Django"), ("Flask"),
     ("FastAPI"), ("Express"), ("SQL")],
    ⟨50/100, 20/100, 15/100, some (15/100), none⟩⟩),
  (("Frontend Developer"), frontendConfig),
  (("Full Stack Developer"),
   ⟨[("React"), ("Node"), ("JavaScript"), ("SQL"), ("Django"), ("Spring")],
    ⟨40/100, 20/100, 20/100, some (20/100), none⟩⟩),
  (("Data Scientist"),
   ⟨[("Python"), ("Pandas"), ("Scikit"), ("SQL"), ("NLP"), ("TensorFlow"), ("PyTorch")],
    ⟨35/100, 15/100, 40/100, none, some (10/100)⟩⟩),
  (("ML Engineer"),
   ⟨[("Python"), ("TensorFlow"), ("PyTorch"), ("Scikit"), ("Pandas"),
     ("ComputerVision"), ("NLP")],
    ⟨35/100, 20/100, 40/100, none, some (5/100)⟩⟩),
  (("AI Engineer"),
   ⟨[("Python"), ("TensorFlow"), ("PyTorch"), ("LLM"), ("PromptEngineering"), ("Scikit")],
    ⟨35/100, 20/100, 40/100, some (5/100), none⟩⟩),
  (("Data Engineer"),
   ⟨[("SQL"), ("Python"), ("Pandas"), ("AWS"), ("Azure"), ("GCP"), ("Spark"), ("Hadoop")],
    ⟨35/100, 20/100, 40/100, some (5/100), none⟩⟩),
  (("Mobile Developer"),
   ⟨[("Android"), ("Flutter"), ("ReactNative"), ("Swift"), ("Kotlin")],
    ⟨50/100, 20/100, 30/100, some 0, none⟩⟩),
  (("Android Developer"),
   ⟨[("Android"), ("Java"), ("Kotlin")],
    ⟨60/100, 20/100, 20/100, some 0, none⟩⟩),
  (("DevOps Engineer"),
   ⟨[("Docker"), ("Kubernetes"), ("CI/CD"), ("AWS"), ("Azure"), ("GCP"), ("Linux")],
    ⟨50/100, 20/100, 15/100, some (15/100), none⟩⟩),
  (("Cloud Engineer"),
   ⟨[("AWS"), ("Azure"), ("GCP"), ("Docker"), ("Kubernetes")],
    ⟨50/100, 20/100, 20/100, some (10/100), none⟩⟩),
  (("Cybersecurity Analyst"),
   ⟨[("EthicalHacking"), ("Cryptography"), ("NetworkSecurity"), ("Linux")],
    ⟨50/100, 20/100, 30/100, some 0, none⟩⟩),
  (("Game Developer"),
   ⟨[("C++"), ("C"), ("Unity"), ("Unreal"), ("OpenGL")],
    ⟨50/100, 10/100, 30/100, some (10/100), none⟩⟩),
  (("Blockchain Developer"),
   ⟨[("Solidity"), ("Rust"), ("Go"), ("Cryptography"), ("SmartContracts")],
    ⟨50/100, 10/100, 30/100, some (10/100), none⟩⟩),
  (("QA Engineer"),
   ⟨[("Selenium"), ("JUnit"), ("PyTest"), ("SystemDesign"), ("SQL")],
    ⟨50/100, 20/100, 15/100, some (15/100), none⟩⟩),
  (("Java Developer"), javaDevConfig),
  (("Python Developer"),
   ⟨[("Python"), ("Django"), ("Flask"), ("FastAPI"), ("SQL"), ("Pandas")],
    ⟨50/100, 20/100, 15/100, none, some (15/100)⟩⟩)]

/-- Per-role score that `rank_roles` computes before sorting (already scaled
×100 and rounded to 2 decimals). -/
def roleScore (role : String) (config : RoleConfig) (user_features : Dict) : ℚ :=
  let weights := config.weights
  let required := config.required
  let denom : ℚ :=
    if [("Frontend Developer"), ("Software Engineer")].contains role then 8 else 6
  let matchCount := (required.filter fun s => getD user_features s > 0).length
  let skill_score := min ((matchCount : ℚ) / denom) 1
  let score := skill_score * weights.skills
  let intern_score : ℚ :=
    if [("Software Engineer"), ("Backend Developer"), ("Full Stack Developer"),
        ("Java Developer"), ("Python Developer"), ("Game Developer"),
        ("Blockchain Developer")].contains role then
      (getD user_features ("internship_backend") : ℚ)
    else if [("Frontend Developer"), ("QA Engineer")].contains role then
      max (getD user_features ("internship_backend") : ℚ)
        (getD user_features ("internship_mobile") : ℚ)
    else if [("Data Scientist"), ("ML Engineer"), ("AI Engineer"),
        ("Data Engineer")].contains role then
      max (max (getD user_features ("internship_ai") : ℚ)
            (getD user_features ("internship_data") : ℚ))
        ((getD user_features ("internship_backend") : ℚ) * (8 / 10))
    else if [("Mobile Developer"), ("Android Developer")].contains role then
      (getD user_features ("internship_mobile") : ℚ)
    else if [("DevOps Engineer"), ("Cloud Engineer")].contains role then
      (getD user_features ("internship_cloud") : ℚ)
    else if role = ("Cybersecurity Analyst") then
      (getD user_features ("internship_security") : ℚ)
    else 0
  let score := score + min intern_score 1 * weights.internship
  let proj_count : Int :=
    if [("Backend Developer"), ("Full Stack Developer"), ("Java Developer"),
        ("Python Developer"), ("Game Developer"), ("Blockchain Developer")].contains role then
      getD user_features ("num_backend_projects")
    else if role = ("Frontend Developer") then
      max (getD user_features ("num_backend_projects"))
        (getD user_features ("num_mobile_projects"))
    else if [("Data Scientist"), ("ML Engineer"), ("AI Engineer"),
        ("Data Engineer")].contains role then
      getD user_features ("num_ai_projects")
    else if [("Mobile Developer"), ("Android Developer"), ("QA Engineer")].contains role then
      getD user_features ("num_mobile_projects")
    else if [("DevOps Engineer"), ("Cloud Engineer")].contains role then
      getD user_features ("num_cloud_projects")
    else if role = ("Cybersecurity Analyst") then
      getD user_features ("num_security_projects")
    else 0
  let proj_score := min ((proj_count : ℚ) / 4) 1
  let score := score + proj_score * weights.projects
  let score :=
    match weights.github with
    | some g =>
      let commits := getD user_features ("github_total_commits")
      score + min ((commits : ℚ) / 300) 1 * g
    | none =>
      match weights.leetcode with
      | some l =>
        let solved := getD user_features ("leetcode_medium") +
          getD user_features ("leetcode_hard") * 2
        score + min ((solved : ℚ) / 100) 1 * l
      | none => score
  round2 (score * 100)

/-- Stable insert for the descending sort of `(role, score)` pairs. -/
def insertScoreDesc (a : String × ℚ) : List (String × ℚ) → List (String × ℚ)
  | [] => [a]
  | b :: rest => if a.2 < b.2 then b :: insertScoreDesc a rest else a :: b :: rest

/-- Stable descending sort of `(role, score)` pairs, as
`sorted(scores.items(), key=lambda x: x[1], reverse=True)`. -/
def sortScoresDesc (l : List (String × ℚ)) : List (String × ℚ) :=
  l.foldr insertScoreDesc []

/-- `rank_roles`: compute every role's score, sort descending (stable, as
Python's `sorted(..., reverse=True)`), return the first `top_k`. -/
def rank_roles (user_features : Dict) (top_k : Nat := 3) : List (String × ℚ) :=
  let scores := ROLE_DEFINITIONS.map fun rc => (rc.1, roleScore rc.1 rc.2 user_features)
  (sortScoresDesc scores).take top_k

/-- The columns that `extract_github_features` can write. -/
def ghTouched : List String :=
  [("num_backend_projects"), ("num_ai_projects"), ("num_mobile_projects"),
   ("num_cloud_projects"), ("num_security_projects"), ("github_total_repos"),
   ("github_total_commits"), ("open_source_contribution_score")]

/-- The columns that `extract_leetcode_features` can write. -/
def lcTouched : List String :=
  [("leetcode_easy"), ("leetcode_medium"), ("leetcode_hard"),
   ("leetcode_total"), ("leetcode_contest_rating")]

/-- The binary skill columns (the first 45 canonical fields). -/
def skillColumns : List String := FEATURE_COLUMNS.take 45

/-- A GitHub repository with language `Java`, used as a concrete witness
input. -/
def githubJavaRepo : Repo :=
  ⟨some ("Java"), ("r").data, none, false, 0, 0, [], ("u/r")⟩

/-- Concrete resume text for the project-count monotonicity analysis:
a `projects` header, two `ml` mentions, then 110 characters of filler. -/
def c4Text : List Char :=
  ("projects ml ml").data ++ (List.replicate 55 ((" x").data)).flatten

/-- Extension appended to `c4Text`: more matching project-context text. -/
def c4Extension : List Char := (" ml project").data

/-- The synthetic feature vector of the role-ranking check: every required
skill of `Java Developer` set to 1, every other field 0 (the skill `Hibernate`
is not a canonical column, so the assignment appends it, as a Python dict
would). -/
def javaDevSyntheticVector : Dict :=
  javaDevRequired.foldl (fun d s => dset d s 1) initialize_feature_vector

/-- Last character consumed by a literal word, else the incoming `prev`. -/
def lastP (w : List Char) (prev : Option Char) : Option Char :=
  match w.getLast? with
  | some c => some c
  | none => prev

/-- Does the text start with a (possibly empty) whitespace run followed by
`native`?  Mirrors the lookahead `\s*native`. -/
def wsStarNative : List Char → Bool
  | [] => (("native").data).isPrefixOf []
  | c :: rest => (("native").data).isPrefixOf (c :: rest)
      || (decide (c ∈ wsChars) && wsStarNative rest)

/-- Does the text start with at least one whitespace character followed by a
(possibly empty) whitespace run and `native`? -/
def wsThenNative : List Char → Bool
  | [] => false
  | c :: rest => decide (c ∈ wsChars) && wsStarNative rest

/-- Every occurrence of `java` in the lowercased text is immediately followed
by `script` (so `java` occurs only inside `javascript`). -/
def javaShield (s : List Char) : Prop :=
  ∀ n, n < s.length → (("java").data).isPrefixOf (s.drop n) = true →
    (("script").data).isPrefixOf (s.drop (n + 4)) = true

/-- Every occurrence of `c` in the lowercased text is immediately followed by
`++` or `#` (so `c` occurs only inside `c++` or `c#`). -/
def cShield (s : List Char) : Prop :=
  ∀ n, n < s.length → (("c").data).isPrefixOf (s.drop n) = true →
    ((("++").data).isPrefixOf (s.drop (n + 1)) = true
      ∨ (("#").data).isPrefixOf (s.drop (n + 1)) = true)

/-- Every occurrence of `react` in the lowercased text is followed by
whitespace and then `native` (so `react` occurs only as part of a spaced
`react native` mention). -/
def reactShield (s : List Char) : Prop :=
  ∀ n, n < s.length → (("react").data).isPrefixOf (s.drop n) = true →
    wsThenNative (s.drop (n + 5)) = true

instance decJavaShield (s : List Char) : Decidable (javaShield s) := by
  unfold javaShield
  infer_instance

instance decCShield (s : List Char) : Decidable (cShield s) := by
  unfold cShield
  infer_instance

instance decReactShield (s : List Char) : Decidable (reactShield s) := by
  unfold reactShield
  infer_instance

/-! ### Generic lemmas about the dictionary loops -/

theorem foldl_inv {α : Type} (P : Dict → Prop) (step : Dict → α → Dict) (l : List α)
    (d : Dict) (hstep : ∀ d' a, a ∈ l → P d' → P (step d' a)) (hd : P d) :
    P (l.foldl step d) := by
  induction l generalizing d with
  | nil => exact hd
  | cons a rest ih =>
    exact ih _ (fun d' b hb => hstep d' b (List.mem_cons_of_mem _ hb))
      (hstep d a (List.mem_cons_self _ _) hd)

theorem lookup_eq_none_of_not_mem {β : Type} (l : List (String × β)) (k : String)
    (h : k ∉ l.map Prod.fst) : List.lookup k l = none := by
  induction l with
  | nil => rfl
  | cons p rest ih =>
    obtain ⟨k0, v0⟩ := p
    simp only [List.map_cons, List.mem_cons] at h
    push_neg at h
    have hbeq : (k == k0) = false := by
      simp [beq_iff_eq, h.1]
    simp [List.lookup, hbeq, ih h.2]

theorem lookup_mem_values {β : Type} (l : List (String × β)) (k : String) (v : β)
    (h : List.lookup k l = some v) : v ∈ l.map Prod.snd := by
  induction l with
  | nil => simp [List.lookup] at h
  | cons p rest ih =>
    obtain ⟨k0, v0⟩ := p
    by_cases hk : k == k0
    · simp only [List.lookup, hk] at h
      simp only [Option.some.injEq] at h
      simp [h]
    · simp only [List.lookup] at h
      rw [Bool.not_eq_true] at hk
      rw [hk] at h
      simp [ih h]

theorem getD_nonneg_dset (d : Dict) (k : String) (v : Int) (hv : 0 ≤ v)
    (hd : ∀ k', 0 ≤ getD d k') : ∀ k', 0 ≤ getD (dset d k v) k' := by
  intro k'
  by_cases h : k = k'
  · subst h
    rw [getD_dset_self]
    exact hv
  · rw [getD_dset_ne _ _ _ _ h]
    exact hd k'

theorem keys_flagLoop (tbl : List (String × List Rx)) (ctx : List Char) (d : Dict)
    (K : List String) (hd : keys d = K) (htbl : ∀ e ∈ tbl, e.1 ∈ K) :
    keys (flagLoop tbl ctx d) = K := by
  refine foldl_inv (fun d' => keys d' = K) _ tbl d ?_ hd
  intro d' e he hP
  by_cases hc : e.2.any fun p => reSearch p ctx
  · simp only [hc, if_pos]
    rw [keys_dset_of_mem]
    · exact hP
    · rw [hP]
      exact htbl e he
  · simp only [hc]
    simpa using hP

theorem keys_countLoop (tbl : List (String × List Rx)) (ctx : List Char) (d : Dict)
    (K : List String) (hd : keys d = K) (htbl : ∀ e ∈ tbl, e.1 ∈ K) :
    keys (countLoop tbl ctx d) = K := by
  refine foldl_inv (fun d' => keys d' = K) _ tbl d ?_ hd
  intro d' e he hP
  rw [keys_dset_of_mem]
  · exact hP
  · rw [hP]
    exact htbl e he

theorem getD_flagLoop (tbl : List (String × List Rx)) (ctx : List Char) (d : Dict)
    (k : String) (hnd : (tbl.map Prod.fst).Nodup) :
    getD (flagLoop tbl ctx d) k =
      match List.lookup k tbl with
      | some pats => if pats.any (fun p => reSearch p ctx) then 1 else getD d k
      | none => getD d k := by
  induction tbl generalizing d with
  | nil => rfl
  | cons e rest ih =>
    obtain ⟨k0, pats0⟩ := e
    simp only [List.map_cons, List.nodup_cons] at hnd
    by_cases hk : k = k0
    · subst hk
      simp only [flagLoop, List.foldl_cons]
      have hrest : List.lookup k rest = none := lookup_eq_none_of_not_mem rest k hnd.1
      have := ih (d := if pats0.any (fun p => reSearch p ctx) then dset d k 1 else d) hnd.2
      simp only [flagLoop] at this
      rw [this, hrest]
      simp only [List.lookup, beq_self_eq_true]
      by_cases hc : pats0.any fun p => reSearch p ctx
      · simp [hc, getD_dset_self]
      · simp [hc]
    · simp only [flagLoop, List.foldl_cons]
      have := ih (d := if pats0.any (fun p => reSearch p ctx) then dset d k0 1 else d) hnd.2
      simp only [flagLoop] at this
      rw [this]
      have hgd : getD (if pats0.any (fun p => reSearch p ctx) then dset d k0 1 else d) k
          = getD d k := by
        by_cases hc : pats0.any fun p => reSearch p ctx
        · simp [hc, getD_dset_ne d k0 k 1 (Ne.symm hk)]
        · simp [hc]
      have hbeq : (k == k0) = false := by
        simp [beq_iff_eq, hk]
      simp only [List.lookup, hbeq]
      cases List.lookup k rest with
      | none => exact hgd
      | some pats => rw [hgd]

theorem getD_countLoop (tbl : List (String × List Rx)) (ctx : List Char) (d : Dict)
    (k : String) (hnd : (tbl.map Prod.fst).Nodup) :
    getD (countLoop tbl ctx d) k =
      match List.lookup k tbl with
      | some pats => Int.ofNat (min (countAll pats ctx) 10)
      | none => getD d k := by
  induction tbl generalizing d with
  | nil => rfl
  | cons e rest ih =>
    obtain ⟨k0, pats0⟩ := e
    simp only [List.map_cons, List.nodup_cons] at hnd
    by_cases hk : k = k0
    · subst hk
      simp only [countLoop, List.foldl_cons]
      have hrest : List.lookup k rest = none := lookup_eq_none_of_not_mem rest k hnd.1
      have := ih (d := dset d k (Int.ofNat (min (countAll pats0 ctx) 10))) hnd.2
      simp only [countLoop] at this
      rw [this, hrest]
      simp only [List.lookup, beq_self_eq_true]
      simp [getD_dset_self]
    · simp only [countLoop, List.foldl_cons]
      have := ih (d := dset d k0 (Int.ofNat (min (countAll pats0 ctx) 10))) hnd.2
      simp only [countLoop] at this
      rw [this]
      have hgd : getD (dset d k0 (Int.ofNat (min (countAll pats0 ctx) 10))) k = getD d k :=
        getD_dset_ne d k0 k _ (Ne.symm hk)
      have hbeq : (k == k0) = false := by
        simp [beq_iff_eq, hk]
      simp only [List.lookup, hbeq]
      cases List.lookup k rest with
      | none => exact hgd
      | some pats => rw [hgd]

theorem keys_mergeWith (combine : String → Int → Int → Int) (fv src : Dict) :
    keys (mergeWith combine fv src) = keys fv := by
  refine foldl_inv (fun d' => keys d' = keys fv) _ src fv ?_ rfl
  intro d' e _ hP
  by_cases hc : dcontains d' e.1
  · simp only [mergeWith, hc, if_pos]
    rw [keys_dset_of_mem]
    · exact hP
    · exact (dcontains_iff_mem_keys d' e.1).1 hc
  · simp [hc]
    simpa using hP

theorem getD_mergeWith (combine : String → Int → Int → Int) (fv src : Dict) (k : String)
    (hnd : (src.map Prod.fst).Nodup) :
    getD (mergeWith combine fv src) k =
      match List.lookup k src with
      | some v => if k ∈ keys fv then combine k (getD fv k) v else getD fv k
      | none => getD fv k := by
  induction src generalizing fv with
  | nil => rfl
  | cons e rest ih =>
    obtain ⟨k0, v0⟩ := e
    simp only [List.map_cons, List.nodup_cons] at hnd
    have hstepkeys : ∀ fv' : Dict,
        keys (if dcontains fv' k0 then dset fv' k0 (combine k0 (getD fv' k0) v0) else fv')
          = keys fv' := by
      intro fv'
      by_cases hc : dcontains fv' k0
      · simp only [hc, if_pos]
        exact keys_dset_of_mem _ _ _ ((dcontains_iff_mem_keys fv' k0).1 hc)
      · simp [hc]
    by_cases hk : k = k0
    · subst hk
      simp only [mergeWith, List.foldl_cons]
      have hrest : List.lookup k rest = none := lookup_eq_none_of_not_mem rest k hnd.1
      have := ih (if dcontains fv k then dset fv k (combine k (getD fv k) v0) else fv)
        hnd.2
      simp only [mergeWith] at this
      rw [this, hrest]
      simp only [List.lookup, beq_self_eq_true]
      by_cases hc : dcontains fv k
      · have hm : k ∈ keys fv := (dcontains_iff_mem_keys fv k).1 hc
        simp [hc, hm, getD_dset_self]
      · have hm : k ∉ keys fv := fun hmem =>
          hc ((dcontains_iff_mem_keys fv k).2 hmem)
        simp [hc, hm]
    · simp only [mergeWith, List.foldl_cons]
      have := ih (if dcontains fv k0 then dset fv k0 (combine k0 (getD fv k0) v0) else fv)
        hnd.2
      simp only [mergeWith] at this
      rw [this]
      have hgd : getD (if dcontains fv k0 then dset fv k0 (combine k0 (getD fv k0) v0) else fv) k
          = getD fv k := by
        by_cases hc : dcontains fv k0
        · simp [hc, getD_dset_ne fv k0 k _ (Ne.symm hk)]
        · simp [hc]
      have hbeq : (k == k0) = false := by
        simp [beq_iff_eq, hk]
      simp only [List.lookup, hbeq]
      rw [hstepkeys fv]
      cases List.lookup k rest with
      | none => exact hgd
      | some v => rw [hgd]

theorem getD_flagLoop_none (tbl : List (String × List Rx)) (ctx : List Char) (d : Dict)
    (k : String) (hnd : (tbl.map Prod.fst).Nodup) (h : List.lookup k tbl = none) :
    getD (flagLoop tbl ctx d) k = getD d k := by
  rw [getD_flagLoop tbl ctx d k hnd, h]

theorem getD_flagLoop_some (tbl : List (String × List Rx)) (ctx : List Char) (d : Dict)
    (k : String) (pats : List Rx) (hnd : (tbl.map Prod.fst).Nodup)
    (h : List.lookup k tbl = some pats) :
    getD (flagLoop tbl ctx d) k =
      if pats.any (fun p => reSearch p ctx) then 1 else getD d k := by
  rw [getD_flagLoop tbl ctx d k hnd, h]

theorem getD_countLoop_none (tbl : List (String × List Rx)) (ctx : List Char) (d : Dict)
    (k : String) (hnd : (tbl.map Prod.fst).Nodup) (h : List.lookup k tbl = none) :
    getD (countLoop tbl ctx d) k = getD d k := by
  rw [getD_countLoop tbl ctx d k hnd, h]

theorem getD_countLoop_some (tbl : List (String × List Rx)) (ctx : List Char) (d : Dict)
    (k : String) (pats : List Rx) (hnd : (tbl.map Prod.fst).Nodup)
    (h : List.lookup k tbl = some pats) :
    getD (countLoop tbl ctx d) k = Int.ofNat (min (countAll pats ctx) 10) := by
  rw [getD_countLoop tbl ctx d k hnd, h]

theorem getD_mergeWith_none (combine : String → Int → Int → Int) (fv src : Dict)
    (k : String) (hnd : (src.map Prod.fst).Nodup) (h : List.lookup k src = none) :
    getD (mergeWith combine fv src) k = getD fv k := by
  rw [getD_mergeWith combine fv src k hnd, h]

theorem getD_mergeWith_some (combine : String → Int → Int → Int) (fv src : Dict)
    (k : String) (v : Int) (hnd : (src.map Prod.fst).Nodup)
    (h : List.lookup k src = some v) (hmem : k ∈ keys fv) :
    getD (mergeWith combine fv src) k = combine k (getD fv k) v := by
  rw [getD_mergeWith combine fv src k hnd, h]
  simp [hmem]

/-! ### Facts about the concrete tables and the extractors -/

theorem keys_init : keys initialize_feature_vector = FEATURE_COLUMNS := by
  have h : (Prod.fst ∘ fun col : String => (col, (0 : Int))) = id := rfl
  simp only [initialize_feature_vector, keys, List.map_map, h, List.map_id]

theorem getD_init (k : String) : getD initialize_feature_vector k = 0 := by
  have h : ∀ cols : List String, getD (cols.map fun col => (col, (0 : Int))) k = 0 := by
    intro cols
    induction cols with
    | nil => rfl
    | cons c rest ih =>
      by_cases hck : c = k <;> simp [getD, hck, ih]
  exact h FEATURE_COLUMNS

theorem nodup_FEATURE_COLUMNS : FEATURE_COLUMNS.Nodup := by decide

theorem extract_resume_blank (t : List Char) (h : t = [] ∨ pyStrip t = []) :
    extract_resume_features t = initialize_feature_vector := by
  simp only [extract_resume_features, if_pos h]

theorem extract_github_blank (u : List Char) (h : u = [] ∨ pyStrip u = [])
    (api : Option (List Repo)) (cc : String → Nat) :
    extract_github_features u api cc = initialize_feature_vector := by
  simp only [extract_github_features, if_pos h]

theorem extract_leetcode_blank (u : List Char) (h : u = [] ∨ pyStrip u = [])
    (api : Option LCData) :
    extract_leetcode_features u api = initialize_feature_vector := by
  simp only [extract_leetcode_features, if_pos h]

theorem keys_extract_resume (t : List Char) :
    keys (extract_resume_features t) = FEATURE_COLUMNS := by
  simp only [extract_resume_features]
  split
  · exact keys_init
  · refine keys_countLoop _ _ _ _ ?_ (by decide)
    refine keys_flagLoop _ _ _ _ ?_ (by decide)
    exact keys_flagLoop _ _ _ _ keys_init (by decide)

theorem keys_classifyRepo (d : Dict) (r : Repo) (hd : keys d = FEATURE_COLUMNS) :
    keys (classifyRepo d r) = FEATURE_COLUMNS := by
  have hdinc : ∀ cat, cat ∈ FEATURE_COLUMNS → keys (dinc d cat) = FEATURE_COLUMNS := by
    intro cat hcat
    rw [dinc, keys_dset_of_mem]
    · exact hd
    · rw [hd]
      exact hcat
  unfold classifyRepo
  cases hlc : langCategory r.language with
  | some cat =>
    simp only []
    refine hdinc cat ?_
    have hmem : cat ∈ _LANGUAGE_TO_CATEGORY.map Prod.snd := by
      cases hl : r.language with
      | none => rw [hl] at hlc; simp [langCategory] at hlc
      | some l =>
        rw [hl] at hlc
        simp only [langCategory] at hlc
        by_cases he : l = ""
        · simp [he] at hlc
        · rw [if_neg he] at hlc
          exact lookup_mem_values _ _ _ hlc
    revert hmem
    have : ∀ v ∈ _LANGUAGE_TO_CATEGORY.map Prod.snd, v ∈ FEATURE_COLUMNS := by decide
    exact this cat
  | none =>
    simp only []
    by_cases hamb : ambiguousOrNone r.language
    · simp only [hamb, if_pos]
      cases hf : _REPO_HINT_PATTERNS.find? (fun pc =>
          reSearch pc.1 (pyLower (r.name ++ ' ' :: r.description.getD []))) with
      | some pc =>
        simp only []
        refine hdinc pc.2 ?_
        have hmem : pc ∈ _REPO_HINT_PATTERNS := List.mem_of_find?_eq_some hf
        have : ∀ pc' ∈ _REPO_HINT_PATTERNS, pc'.2 ∈ FEATURE_COLUMNS := by decide
        exact this pc hmem
      | none =>
        simp only []
        split
        · exact hdinc _ (by decide)
        · exact hd
    · simp only [hamb]
      simpa using hd

theorem keys_extract_github (u : List Char) (api : Option (List Repo)) (cc : String → Nat) :
    keys (extract_github_features u api cc) = FEATURE_COLUMNS := by
  unfold extract_github_features
  split
  · exact keys_init
  · cases api with
    | none => exact keys_init
    | some repos =>
      simp only []
      have h1 : keys (dset initialize_feature_vector ("github_total_repos")
          (Int.ofNat repos.length)) = FEATURE_COLUMNS := by
        rw [keys_dset_of_mem]
        · exact keys_init
        · rw [keys_init]
          decide
      have h2 : keys (repos.foldl classifyRepo (dset initialize_feature_vector
          ("github_total_repos") (Int.ofNat repos.length))) = FEATURE_COLUMNS :=
        foldl_inv (fun d' => keys d' = FEATURE_COLUMNS) _ repos _
          (fun d' r _ hP => keys_classifyRepo d' r hP) h1
      have h3 : ∀ v : Int, keys (dset (repos.foldl classifyRepo
          (dset initialize_feature_vector ("github_total_repos") (Int.ofNat repos.length)))
          ("github_total_commits") v) = FEATURE_COLUMNS := by
        intro v
        rw [keys_dset_of_mem]
        · exact h2
        · rw [h2]
          decide
      rw [keys_dset_of_mem]
      · exact h3 _
      · rw [h3 _]
        decide

theorem keys_lc_fold (ac_stats : List LCEntry) (d : Dict) (hd : keys d = FEATURE_COLUMNS) :
    keys (ac_stats.foldl (fun f entry =>
      match List.lookup entry.difficulty difficulty_map with
      | some col => dset f col entry.count
      | none => f) d) = FEATURE_COLUMNS := by
  refine foldl_inv (fun d' => keys d' = FEATURE_COLUMNS) _ ac_stats _ ?_ hd
  intro d' entry _ hP
  cases hl : List.lookup entry.difficulty difficulty_map with
  | none => simpa using hP
  | some col =>
    simp only []
    rw [keys_dset_of_mem]
    · exact hP
    · rw [hP]
      have hmem : col ∈ difficulty_map.map Prod.snd := lookup_mem_values _ _ _ hl
      have hsub : ∀ v ∈ difficulty_map.map Prod.snd, v ∈ FEATURE_COLUMNS := by decide
      exact hsub col hmem

theorem keys_extract_leetcode (u : List Char) (api : Option LCData) :
    keys (extract_leetcode_features u api) = FEATURE_COLUMNS := by
  unfold extract_leetcode_features
  split
  · exact keys_init
  · cases api with
    | none => exact keys_init
    | some data =>
      obtain ⟨mu, cr⟩ := data
      cases mu with
      | none => exact keys_init
      | some ac_stats =>
        simp only []
        have hfold := keys_lc_fold ac_stats initialize_feature_vector keys_init
        have htot : ∀ v : Int, keys (dset (ac_stats.foldl (fun f entry =>
            match List.lookup entry.difficulty difficulty_map with
            | some col => dset f col entry.count
            | none => f) initialize_feature_vector) ("leetcode_total") v) = FEATURE_COLUMNS := by
          intro v
          rw [keys_dset_of_mem]
          · exact hfold
          · rw [hfold]
            decide
        cases cr with
        | none => exact htot _
        | some r =>
          simp only []
          split
          · rw [keys_dset_of_mem]
            · exact htot _
            · rw [htot _]
              decide
          · exact htot _

theorem keys_assemble (rt gu lu : List Char) (gapi : Option (List Repo))
    (cc : String → Nat) (lapi : Option LCData) :
    keys (assembleDict rt gu lu gapi cc lapi) = FEATURE_COLUMNS := by
  unfold assembleDict
  simp only [mergeResume, mergeGithub, mergeMax]
  rw [keys_mergeWith, keys_mergeWith, keys_mergeWith, keys_init]

theorem validate_ok_of_keys (d : Dict) (hk : keys d = FEATURE_COLUMNS) :
    _validate_feature_vector d = .ok () := by
  have hlen : d.length = FEATURE_COLUMNS.length := by
    have h := congrArg List.length hk
    simpa [keys] using h
  have h1 : (FEATURE_COLUMNS.filter fun c => !(FEATURE_COLUMNS.contains c)) = [] := by decide
  unfold _validate_feature_vector
  rw [hk, hlen, h1]
  simp

/-! ### Values that each extractor leaves untouched, and nonnegativity -/

theorem getD_extract_resume_zero (t : List Char) (k : String)
    (h1 : List.lookup k _SKILL_PATTERNS = none)
    (h2 : List.lookup k _INTERNSHIP_PATTERNS = none)
    (h3 : List.lookup k _PROJECT_PATTERNS = none) :
    getD (extract_resume_features t) k = 0 := by
  unfold extract_resume_features
  split
  · exact getD_init k
  · rw [getD_countLoop_none _ _ _ _ (by decide) h3,
      getD_flagLoop_none _ _ _ _ (by decide) h2,
      getD_flagLoop_none _ _ _ _ (by decide) h1]
    exact getD_init k

theorem getD_classifyRepo_ne (d : Dict) (r : Repo) (k : String)
    (hk : ∀ cat ∈ ([("num_backend_projects"), ("num_ai_projects"),
      ("num_mobile_projects"), ("num_cloud_projects"),
      ("num_security_projects")] : List String), cat ≠ k) :
    getD (classifyRepo d r) k = getD d k := by
  have hdinc : ∀ cat, cat ∈ ([("num_backend_projects"), ("num_ai_projects"),
      ("num_mobile_projects"), ("num_cloud_projects"),
      ("num_security_projects")] : List String) → getD (dinc d cat) k = getD d k := by
    intro cat hcat
    exact getD_dset_ne d cat k _ (hk cat hcat)
  unfold classifyRepo
  cases hlc : langCategory r.language with
  | some cat =>
    simp only []
    refine hdinc cat ?_
    have hmem : cat ∈ _LANGUAGE_TO_CATEGORY.map Prod.snd := by
      cases hl : r.language with
      | none => rw [hl] at hlc; simp [langCategory] at hlc
      | some l =>
        rw [hl] at hlc
        simp only [langCategory] at hlc
        by_cases he : l = ""
        · simp [he] at hlc
        · rw [if_neg he] at hlc
          exact lookup_mem_values _ _ _ hlc
    have hsub : ∀ v ∈ _LANGUAGE_TO_CATEGORY.map Prod.snd,
        v ∈ ([("num_backend_projects"), ("num_ai_projects"), ("num_mobile_projects"),
          ("num_cloud_projects"), ("num_security_projects")] : List String) := by decide
    exact hsub cat hmem
  | none =>
    simp only []
    by_cases hamb : ambiguousOrNone r.language
    · simp only [hamb, if_pos]
      cases hf : _REPO_HINT_PATTERNS.find? (fun pc =>
          reSearch pc.1 (pyLower (r.name ++ ' ' :: r.description.getD []))) with
      | some pc =>
        simp only []
        refine hdinc pc.2 ?_
        have hmem : pc ∈ _REPO_HINT_PATTERNS := List.mem_of_find?_eq_some hf
        have hsub : ∀ pc' ∈ _REPO_HINT_PATTERNS,
            pc'.2 ∈ ([("num_backend_projects"), ("num_ai_projects"), ("num_mobile_projects"),
              ("num_cloud_projects"), ("num_security_projects")] : List String) := by decide
        exact hsub pc hmem
      | none =>
        simp only []
        split
        · exact hdinc _ (by decide)
        · rfl
    · simp only [hamb]
      rfl

theorem getD_extract_github_zero (u : List Char) (api : Option (List Repo))
    (cc : String → Nat) (k : String) (hk : k ∉ ghTouched) :
    getD (extract_github_features u api cc) k = 0 := by
  simp only [ghTouched, List.mem_cons, List.not_mem_nil, or_false] at hk
  push_neg at hk
  obtain ⟨n1, n2, n3, n4, n5, n6, n7, n8⟩ := hk
  unfold extract_github_features
  split
  · exact getD_init k
  · cases api with
    | none => exact getD_init k
    | some repos =>
      simp only []
      rw [getD_dset_ne _ _ _ _ (Ne.symm n8), getD_dset_ne _ _ _ _ (Ne.symm n7)]
      have hfold : getD (repos.foldl classifyRepo (dset initialize_feature_vector
          ("github_total_repos") (Int.ofNat repos.length))) k =
          getD (dset initialize_feature_vector ("github_total_repos")
            (Int.ofNat repos.length)) k := by
        refine foldl_inv (fun d' => getD d' k = getD (dset initialize_feature_vector
          ("github_total_repos") (Int.ofNat repos.length)) k) _ repos _ ?_ rfl
        intro d' r _ hP
        rw [getD_classifyRepo_ne d' r k ?_]
        · exact hP
        · intro cat hcat
          simp only [List.mem_cons, List.not_mem_nil, or_false] at hcat
          rcases hcat with h | h | h | h | h
          · exact h ▸ Ne.symm n1
          · exact h ▸ Ne.symm n2
          · exact h ▸ Ne.symm n3
          · exact h ▸ Ne.symm n4
          · exact h ▸ Ne.symm n5
      rw [hfold, getD_dset_ne _ _ _ _ (Ne.symm n6)]
      exact getD_init k

theorem getD_extract_leetcode_zero (u : List Char) (api : Option LCData) (k : String)
    (hk : k ∉ lcTouched) :
    getD (extract_leetcode_features u api) k = 0 := by
  simp only [lcTouched, List.mem_cons, List.not_mem_nil, or_false] at hk
  push_neg at hk
  obtain ⟨n1, n2, n3, n4, n5⟩ := hk
  unfold extract_leetcode_features
  split
  · exact getD_init k
  · cases api with
    | none => exact getD_init k
    | some data =>
      obtain ⟨mu, cr⟩ := data
      cases mu with
      | none => exact getD_init k
      | some ac_stats =>
        simp only []
        have hfold : getD (ac_stats.foldl (fun f entry =>
            match List.lookup entry.difficulty difficulty_map with
            | some col => dset f col entry.count
            | none => f) initialize_feature_vector) k = 0 := by
          refine foldl_inv (fun d' => getD d' k = 0) _ ac_stats _ ?_ (getD_init k)
          intro d' entry _ hP
          cases hl : List.lookup entry.difficulty difficulty_map with
          | none => simpa using hP
          | some col =>
            simp only []
            have hmem : col ∈ difficulty_map.map Prod.snd := lookup_mem_values _ _ _ hl
            have hne : col ≠ k := by
              rcases (by decide : ∀ v ∈ difficulty_map.map Prod.snd,
                v = ("leetcode_easy") ∨ v = ("leetcode_medium") ∨
                  v = ("leetcode_hard")) col hmem with h | h | h
              · exact h ▸ Ne.symm n1
              · exact h ▸ Ne.symm n2
              · exact h ▸ Ne.symm n3
            rw [getD_dset_ne _ _ _ _ hne]
            exact hP
        have htot : ∀ v : Int, getD (dset (ac_stats.foldl (fun f entry =>
            match List.lookup entry.difficulty difficulty_map with
            | some col => dset f col entry.count
            | none => f) initialize_feature_vector) ("leetcode_total") v) k = 0 := by
          intro v
          rw [getD_dset_ne _ _ _ _ (Ne.symm n4)]
          exact hfold
        cases cr with
        | none => exact htot _
        | some r =>
          simp only []
          split
          · rw [getD_dset_ne _ _ _ _ (Ne.symm n5)]
            exact htot _
          · exact htot _

theorem nonneg_flagLoop (tbl : List (String × List Rx)) (ctx : List Char) (d : Dict)
    (hd : ∀ k, 0 ≤ getD d k) : ∀ k, 0 ≤ getD (flagLoop tbl ctx d) k := by
  refine foldl_inv (fun d' => ∀ k, 0 ≤ getD d' k) _ tbl d ?_ hd
  intro d' e _ hP
  by_cases hc : e.2.any fun p => reSearch p ctx
  · simp only [flagLoop, hc, if_pos]
    exact getD_nonneg_dset d' e.1 1 (by norm_num) hP
  · simpa [hc] using hP

theorem nonneg_countLoop (tbl : List (String × List Rx)) (ctx : List Char) (d : Dict)
    (hd : ∀ k, 0 ≤ getD d k) : ∀ k, 0 ≤ getD (countLoop tbl ctx d) k := by
  refine foldl_inv (fun d' => ∀ k, 0 ≤ getD d' k) _ tbl d ?_ hd
  intro d' e _ hP
  exact getD_nonneg_dset d' e.1 _ (Int.ofNat_nonneg _) hP

theorem nonneg_init : ∀ k, 0 ≤ getD initialize_feature_vector k := by
  intro k
  rw [getD_init]

theorem getD_extract_resume_nonneg (t : List Char) (k : String) :
    0 ≤ getD (extract_resume_features t) k := by
  unfold extract_resume_features
  split
  · exact nonneg_init k
  · exact nonneg_countLoop _ _ _ (nonneg_flagLoop _ _ _ (nonneg_flagLoop _ _ _ nonneg_init)) k

theorem pyInt_nonneg (q : ℚ) (h : 0 ≤ q) : 0 ≤ pyInt q :=
  Int.tdiv_nonneg (Rat.num_nonneg.2 h) (Int.ofNat_nonneg _)

theorem nonneg_classifyRepo (d : Dict) (r : Repo) (hd : ∀ k, 0 ≤ getD d k) :
    ∀ k, 0 ≤ getD (classifyRepo d r) k := by
  have hdinc : ∀ cat, (∀ k, 0 ≤ getD (dinc d cat) k) := by
    intro cat
    have h := hd cat
    exact getD_nonneg_dset d cat _ (by omega) hd
  unfold classifyRepo
  cases langCategory r.language with
  | some cat => exact hdinc cat
  | none =>
    simp only []
    by_cases hamb : ambiguousOrNone r.language
    · simp only [hamb, if_pos]
      cases _REPO_HINT_PATTERNS.find? (fun pc =>
          reSearch pc.1 (pyLower (r.name ++ ' ' :: r.description.getD []))) with
      | some pc => exact hdinc pc.2
      | none =>
        simp only []
        split
        · exact hdinc _
        · exact hd
    · simpa [hamb] using hd

theorem githubCommitTotal_nonneg (repos : List Repo) (cc : String → Nat) :
    0 ≤ githubCommitTotal repos cc := by
  simp only [githubCommitTotal]
  split
  · refine pyInt_nonneg _ ?_
    positivity
  · exact Int.ofNat_nonneg _

theorem githubContributionScore_nonneg (repos : List Repo) (tc : Int) (htc : 0 ≤ tc) :
    0 ≤ githubContributionScore repos tc := by
  unfold githubContributionScore
  have e2 : (0 : Int) ≤ Int.ofNat (repos.map Repo.stargazers_count).sum * 2 :=
    mul_nonneg (Int.ofNat_nonneg _) (by norm_num)
  have e3 : (0 : Int) ≤ Int.ofNat (repos.map Repo.forks_count).sum * 3 :=
    mul_nonneg (Int.ofNat_nonneg _) (by norm_num)
  have e4 : 0 ≤ pyInt ((tc : ℚ) / 10) := by
    refine pyInt_nonneg _ (div_nonneg ?_ (by norm_num))
    exact_mod_cast htc
  exact add_nonneg (add_nonneg (add_nonneg (Int.ofNat_nonneg _) e2) e3) e4

theorem getD_extract_github_nonneg (u : List Char) (api : Option (List Repo))
    (cc : String → Nat) (k : String) :
    0 ≤ getD (extract_github_features u api cc) k := by
  unfold extract_github_features
  split
  · exact nonneg_init k
  · cases api with
    | none => exact nonneg_init k
    | some repos =>
      simp only []
      have h0 : ∀ k', 0 ≤ getD (dset initialize_feature_vector ("github_total_repos")
          (Int.ofNat repos.length)) k' :=
        getD_nonneg_dset _ _ _ (Int.ofNat_nonneg _) nonneg_init
      have h1 : ∀ k', 0 ≤ getD (repos.foldl classifyRepo (dset initialize_feature_vector
          ("github_total_repos") (Int.ofNat repos.length))) k' := by
        refine foldl_inv (fun d' => ∀ k', 0 ≤ getD d' k') _ repos _ ?_ h0
        intro d' r _ hP
        exact nonneg_classifyRepo d' r hP
      exact getD_nonneg_dset _ _ _
        (githubContributionScore_nonneg repos _ (githubCommitTotal_nonneg repos cc))
        (getD_nonneg_dset _ _ _ (githubCommitTotal_nonneg repos cc) h1) k

theorem lookup_eq_some_getD (d : Dict) (k : String) (h : k ∈ keys d) :
    List.lookup k d = some (getD d k) := by
  induction d with
  | nil => simp [keys_nil] at h
  | cons p rest ih =>
    obtain ⟨k0, v0⟩ := p
    by_cases hk : k = k0
    · subst hk
      simp [List.lookup, getD]
    · rw [keys_cons, List.mem_cons] at h
      rcases h with h | h
      · exact absurd h hk
      · have hbeq : (k == k0) = false := by
          simp [beq_iff_eq, hk]
        have hne : ¬(k0 = k) := fun hh => hk hh.symm
        simp only [List.lookup, hbeq, getD, if_neg hne]
        exact ih h

theorem getD_extract_resume_proj (t : List Char) (k : String) (pats : List Rx)
    (hk : List.lookup k _PROJECT_PATTERNS = some pats) :
    getD (extract_resume_features t) k =
      if t = [] ∨ pyStrip t = [] then 0
      else Int.ofNat (min (countAll pats (projectContext (pyLower t))) 10) := by
  by_cases h : t = [] ∨ pyStrip t = []
  · rw [extract_resume_blank t h, if_pos h]
    exact getD_init k
  · simp only [extract_resume_features, if_neg h]
    exact getD_countLoop_some _ _ _ _ _ (by decide) hk

theorem getD_extract_resume_skill (t : List Char) (k : String) (pats : List Rx)
    (hproj : List.lookup k _PROJECT_PATTERNS = none)
    (hint : List.lookup k _INTERNSHIP_PATTERNS = none)
    (hsk : List.lookup k _SKILL_PATTERNS = some pats) :
    getD (extract_resume_features t) k =
      if t = [] ∨ pyStrip t = [] then 0
      else if pats.any (fun p => reSearch p (pyLower t)) then 1 else 0 := by
  by_cases h : t = [] ∨ pyStrip t = []
  · rw [extract_resume_blank t h, if_pos h]
    exact getD_init k
  · simp only [extract_resume_features, if_neg h]
    rw [getD_countLoop_none _ _ _ _ (by decide) hproj,
      getD_flagLoop_none _ _ _ _ (by decide) hint,
      getD_flagLoop_some _ _ _ _ _ (by decide) hsk, getD_init]

/-! ### Claims C1, C10, C6, C2 -/

/-- C1: for every resume text, GitHub username/response and LeetCode
username/response, `build_complete_feature_vector` succeeds and returns the
merged dictionary, whose key list is exactly the canonical 64-name
`FEATURE_COLUMNS` (no extra keys, no missing keys, in particular the merge
neither adds nor drops a key).  Every value is an integer by the type of
`Dict` (`String × Int`), mirroring the `isinstance(value, int)` validation. -/
theorem claim_C1 (rt gu lu : List Char) (gapi : Option (List Repo)) (cc : String → Nat)
    (lapi : Option LCData) :
    build_complete_feature_vector rt gu lu gapi cc lapi
        = .ok (assembleDict rt gu lu gapi cc lapi)
      ∧ keys (assembleDict rt gu lu gapi cc lapi) = FEATURE_COLUMNS := by
  have hkeys := keys_assemble rt gu lu gapi cc lapi
  refine ⟨?_, hkeys⟩
  simp only [build_complete_feature_vector]
  rw [validate_ok_of_keys _ hkeys]

/-- C10: the schema-mismatch branch is unreachable for pipeline-built vectors:
`_validate_feature_vector` never returns an error on the dictionary that
`build_complete_feature_vector` assembles, for any inputs and any external
responses, so the build always succeeds. -/
theorem claim_C10 (rt gu lu : List Char) (gapi : Option (List Repo)) (cc : String → Nat)
    (lapi : Option LCData) :
    _validate_feature_vector (assembleDict rt gu lu gapi cc lapi) = .ok ()
      ∧ ∃ d : Dict, build_complete_feature_vector rt gu lu gapi cc lapi = .ok d := by
  have hv := validate_ok_of_keys _ (keys_assemble rt gu lu gapi cc lapi)
  refine ⟨hv, assembleDict rt gu lu gapi cc lapi, ?_⟩
  simp only [build_complete_feature_vector]
  rw [hv]

/-- C6: when the resume text, the GitHub username and the LeetCode username
are all empty or whitespace-only, the pipeline returns the all-zero vector
(each fetcher short-circuits before any network access, so the result is
independent of the modelled responses), and `extract_resume_features`
short-circuits to the zero vector through its empty-input branch, i.e. without
entering the pattern-matching phase. -/
theorem claim_C6 (rt gu lu : List Char) (gapi : Option (List Repo)) (cc : String → Nat)
    (lapi : Option LCData)
    (h1 : rt = [] ∨ pyStrip rt = []) (h2 : gu = [] ∨ pyStrip gu = [])
    (h3 : lu = [] ∨ pyStrip lu = []) :
    build_complete_feature_vector rt gu lu gapi cc lapi = .ok initialize_feature_vector
      ∧ extract_resume_features rt = initialize_feature_vector := by
  have hr := extract_resume_blank rt h1
  have hg := extract_github_blank gu h2 gapi cc
  have hl := extract_leetcode_blank lu h3 lapi
  refine ⟨?_, hr⟩
  have hasm : assembleDict rt gu lu gapi cc lapi = initialize_feature_vector := by
    unfold assembleDict
    rw [hr, hg, hl]
    decide
  simp only [build_complete_feature_vector]
  rw [hasm, validate_ok_of_keys _ keys_init]

/-- Witness for C6 at concrete blank inputs. -/
theorem claim_C6_witness :
    build_complete_feature_vector (("  ").data) [] ((" \t").data) none (fun _ => 0) none
        = .ok initialize_feature_vector
      ∧ extract_resume_features (("  ").data) = initialize_feature_vector :=
  claim_C6 (("  ").data) [] ((" \t").data) none (fun _ => 0) none
    (by decide) (by decide) (by decide)

/-- C2: merge policy of `build_complete_feature_vector`.  For canonical keys
that start with `num_` or `github_` or equal `open_source_contribution_score`
the merged value is resume value plus GitHub value; for the binary skill
fields it is the maximum (logical OR) of the resume and GitHub values; and for
every field the LeetCode value is merged with a maximum on top of the
resume/GitHub combination. -/
theorem claim_C2 (rt gu lu : List Char) (gapi : Option (List Repo)) (cc : String → Nat)
    (lapi : Option LCData) (k : String) (hk : k ∈ FEATURE_COLUMNS) :
    (additiveKey k = true →
      getD (assembleDict rt gu lu gapi cc lapi) k =
        getD (extract_resume_features rt) k + getD (extract_github_features gu gapi cc) k)
    ∧ (k ∈ skillColumns →
      getD (assembleDict rt gu lu gapi cc lapi) k =
        max (getD (extract_resume_features rt) k) (getD (extract_github_features gu gapi cc) k))
    ∧ getD (assembleDict rt gu lu gapi cc lapi) k =
        max (getD (mergeGithub (mergeResume initialize_feature_vector
              (extract_resume_features rt)) (extract_github_features gu gapi cc)) k)
          (getD (extract_leetcode_features lu lapi) k) := by
  have hRkeys := keys_extract_resume rt
  have hGkeys := keys_extract_github gu gapi cc
  have hLkeys := keys_extract_leetcode lu lapi
  have hRnd : ((extract_resume_features rt).map Prod.fst).Nodup := by
    rw [show (extract_resume_features rt).map Prod.fst = keys (extract_resume_features rt)
      from rfl, hRkeys]
    exact nodup_FEATURE_COLUMNS
  have hGnd : ((extract_github_features gu gapi cc).map Prod.fst).Nodup := by
    rw [show (extract_github_features gu gapi cc).map Prod.fst
      = keys (extract_github_features gu gapi cc) from rfl, hGkeys]
    exact nodup_FEATURE_COLUMNS
  have hLnd : ((extract_leetcode_features lu lapi).map Prod.fst).Nodup := by
    rw [show (extract_leetcode_features lu lapi).map Prod.fst
      = keys (extract_leetcode_features lu lapi) from rfl, hLkeys]
    exact nodup_FEATURE_COLUMNS
  have hRl : List.lookup k (extract_resume_features rt)
      = some (getD (extract_resume_features rt) k) :=
    lookup_eq_some_getD _ _ (by rw [hRkeys]; exact hk)
  have hGl : List.lookup k (extract_github_features gu gapi cc)
      = some (getD (extract_github_features gu gapi cc) k) :=
    lookup_eq_some_getD _ _ (by rw [hGkeys]; exact hk)
  have hLl : List.lookup k (extract_leetcode_features lu lapi)
      = some (getD (extract_leetcode_features lu lapi) k) :=
    lookup_eq_some_getD _ _ (by rw [hLkeys]; exact hk)
  have g1 : getD (mergeResume initialize_feature_vector (extract_resume_features rt)) k
      = getD (extract_resume_features rt) k := by
    rw [mergeResume, getD_mergeWith_some _ _ _ _ _ hRnd hRl (by rw [keys_init]; exact hk)]
  have hkeys1 : keys (mergeResume initialize_feature_vector (extract_resume_features rt))
      = FEATURE_COLUMNS := by
    rw [mergeResume, keys_mergeWith, keys_init]
  have g2 : getD (mergeGithub (mergeResume initialize_feature_vector
      (extract_resume_features rt)) (extract_github_features gu gapi cc)) k
      = if additiveKey k then
          getD (extract_resume_features rt) k + getD (extract_github_features gu gapi cc) k
        else
          max (getD (extract_resume_features rt) k)
            (getD (extract_github_features gu gapi cc) k) := by
    rw [mergeGithub, getD_mergeWith_some _ _ _ _ _ hGnd hGl (by rw [hkeys1]; exact hk), g1]
  have g3 : getD (assembleDict rt gu lu gapi cc lapi) k =
      max (getD (mergeGithub (mergeResume initialize_feature_vector
          (extract_resume_features rt)) (extract_github_features gu gapi cc)) k)
        (getD (extract_leetcode_features lu lapi) k) := by
    have hkeys2 : keys (mergeGithub (mergeResume initialize_feature_vector
        (extract_resume_features rt)) (extract_github_features gu gapi cc))
        = FEATURE_COLUMNS := by
      rw [mergeGithub, keys_mergeWith, hkeys1]
    unfold assembleDict
    rw [mergeMax, getD_mergeWith_some _ _ _ _ _ hLnd hLl (by rw [hkeys2]; exact hk)]
  refine ⟨?_, ?_, g3⟩
  · intro hadd
    have hnotlc : k ∉ lcTouched :=
      (by decide : ∀ k' ∈ FEATURE_COLUMNS, additiveKey k' = true → k' ∉ lcTouched) k hk hadd
    have hL0 : getD (extract_leetcode_features lu lapi) k = 0 :=
      getD_extract_leetcode_zero lu lapi k hnotlc
    rw [g3, g2, if_pos hadd, hL0]
    have hR := getD_extract_resume_nonneg rt k
    have hG := getD_extract_github_nonneg gu gapi cc k
    omega
  · intro hsk
    have hfacts := (by decide : ∀ k' ∈ skillColumns,
      additiveKey k' = false ∧ k' ∉ lcTouched) k hsk
    have hL0 : getD (extract_leetcode_features lu lapi) k = 0 :=
      getD_extract_leetcode_zero lu lapi k hfacts.2
    rw [g3, g2, hfacts.1, if_neg (by simp), hL0]
    have hR := getD_extract_resume_nonneg rt k
    have hG := getD_extract_github_nonneg gu gapi cc k
    have : getD (extract_resume_features rt) k
        ≤ max (getD (extract_resume_features rt) k)
          (getD (extract_github_features gu gapi cc) k) := le_max_left _ _
    omega

/-- Witness for C2 at concrete keys and inputs: the additive branch at
`num_backend_projects` (resume count 2 + GitHub count 3 = 5) and the OR branch
at `Java`. -/
theorem claim_C2_witness :
    (getD (assembleDict (("two backend project: server, backend work").data)
        (("u").data) [] (some (List.replicate 3 githubJavaRepo)) (fun _ => 0) none)
        ("num_backend_projects")
      = getD (extract_resume_features
          (("two backend project: server, backend work").data)) ("num_backend_projects")
        + getD (extract_github_features (("u").data)
            (some (List.replicate 3 githubJavaRepo)) (fun _ => 0)) ("num_backend_projects"))
    ∧ (getD (assembleDict (("java").data) [] [] none (fun _ => 0) none) ("Java")
      = max (getD (extract_resume_features (("java").data)) ("Java"))
          (getD (extract_github_features [] none (fun _ => 0)) ("Java"))) :=
  ⟨(claim_C2 (("two backend project: server, backend work").data) (("u").data) []
      (some (List.replicate 3 githubJavaRepo)) (fun _ => 0) none
      ("num_backend_projects") (by decide)).1 (by decide),
   (claim_C2 (("java").data) [] [] none (fun _ => 0) none ("Java") (by decide)).2.1
      (by decide)⟩

/-! ### Claims C4, C9, C3, C8 -/

theorem proj_le_ten (t : List Char) (k : String) (pats : List Rx)
    (h : List.lookup k _PROJECT_PATTERNS = some pats) :
    getD (extract_resume_features t) k ≤ 10 := by
  rw [getD_extract_resume_proj t k pats h]
  split
  · norm_num
  · rw [show (10 : Int) = Int.ofNat 10 from rfl]
    exact Int.ofNat_le.2 (Nat.min_le_right _ _)

/-- C4 (amended): each of the five per-domain project counts of
`extract_resume_features` is at most 10 for every input text.  (The
monotonicity half of the original claim is refuted by
`claim_C4_counterexample`.) -/
theorem claim_C4 (t : List Char) (k : String)
    (hk : k ∈ ([("num_backend_projects"), ("num_ai_projects"), ("num_mobile_projects"),
      ("num_cloud_projects"), ("num_security_projects")] : List String)) :
    getD (extract_resume_features t) k ≤ 10 := by
  simp only [List.mem_cons, List.not_mem_nil, or_false] at hk
  rcases hk with h | h | h | h | h <;> subst h
  · exact proj_le_ten t _ _ rfl
  · exact proj_le_ten t _ _ rfl
  · exact proj_le_ten t _ _ rfl
  · exact proj_le_ten t _ _ rfl
  · exact proj_le_ten t _ _ rfl

/-- Witness for C4 (amended) at the empty text and `num_ai_projects`. -/
theorem claim_C4_witness :
    getD (extract_resume_features []) ("num_ai_projects") ≤ 10 :=
  claim_C4 [] ("num_ai_projects") (by decide)

/-- C4 counterexample: project counts are not monotone under appending
matching project-context text.  `c4Text` has no standalone `project` token,
so counting falls back to the 500-character window after the `projects`
header and finds both `ml` mentions (count 2); appending `c4Extension`
(which itself contains matching project-context text, `ml` next to
`project`) introduces a standalone `project` token, so the context switches
to the ±100-character window around it, which no longer reaches the two
early `ml` mentions, and the count drops to 1. -/
theorem claim_C4_counterexample :
    getD (extract_resume_features c4Text) ("num_ai_projects") = 2
      ∧ getD (extract_resume_features (c4Text ++ c4Extension)) ("num_ai_projects") = 1 := by
  constructor
  · rw [getD_extract_resume_proj c4Text ("num_ai_projects") aiPats (by rfl)]
    decide
  · rw [getD_extract_resume_proj (c4Text ++ c4Extension) ("num_ai_projects") aiPats (by rfl)]
    decide

/-- C9: the per-domain cap of 10 applies only to resume-derived counts.  With
an empty resume and a GitHub account whose 11 repositories all classify into
the backend domain, the assembled `num_backend_projects` is 11, which exceeds
10. -/
theorem claim_C9 :
    getD (assembleDict [] (("u").data) [] (some (List.replicate 11 githubJavaRepo))
        (fun _ => 0) none) ("num_backend_projects") = 11
      ∧ 10 < getD (assembleDict [] (("u").data) [] (some (List.replicate 11 githubJavaRepo))
        (fun _ => 0) none) ("num_backend_projects") := by
  constructor
  · decide
  · decide

/-- C3: the calibration of `run_analysis_pipeline` is
`round2 (clamp (((raw - 6) / (80 - 6)) * 100, 0, 100))`; it sends raw score 6
to 0, 80 to 100 and 43 to 50; and the category is `Placement Ready` for
display ≥ 75, `Almost Ready` for 50 ≤ display < 75, and `Needs Improvement`
otherwise. -/
theorem claim_C3 :
    (∀ raw : ℚ, calibrate raw = round2 (min 100 (max 0 ((raw - 6) / (80 - 6) * 100))))
    ∧ calibrate 6 = 0 ∧ calibrate 80 = 100 ∧ calibrate 43 = 50
    ∧ (∀ d : ℚ, 75 ≤ d → categorize d = ("Placement Ready"))
    ∧ (∀ d : ℚ, 50 ≤ d → d < 75 → categorize d = ("Almost Ready"))
    ∧ (∀ d : ℚ, d < 50 → categorize d = ("Needs Improvement")) := by
  refine ⟨?_, by decide, by decide, by decide, ?_, ?_, ?_⟩
  · intro raw
    have hd : max 0 (min 100 ((raw - 6) / (80 - 6) * 100))
        = min 100 (max 0 ((raw - 6) / (80 - 6) * 100)) := by
      rw [max_min_distrib_left]
      norm_num
    simp only [calibrate, MODEL_MIN, MODEL_MAX]
    rw [hd]
  · intro d h
    unfold categorize
    rw [if_pos h]
  · intro d h1 h2
    unfold categorize
    rw [if_neg (by exact not_le.2 h2), if_pos h1]
  · intro d h
    unfold categorize
    rw [if_neg (by exact not_le.2 (lt_of_lt_of_le h (by norm_num))),
      if_neg (by exact not_le.2 h)]

/-- Witness for C3's categorisation clauses at concrete display scores. -/
theorem claim_C3_witness :
    categorize 80 = ("Placement Ready") ∧ categorize 60 = ("Almost Ready")
      ∧ categorize 10 = ("Needs Improvement") :=
  ⟨claim_C3.2.2.2.2.1 80 (by norm_num),
   claim_C3.2.2.2.2.2.1 60 (by norm_num) (by norm_num),
   claim_C3.2.2.2.2.2.2 10 (by norm_num)⟩

/-- C8: on the synthetic vector with exactly the `Java Developer` required
skills set, every role whose required-skill list shares none of those skills
scores strictly below `Java Developer`. -/
theorem claim_C8 (role : String) (cfg : RoleConfig)
    (hmem : (role, cfg) ∈ ROLE_DEFINITIONS)
    (hdisj : cfg.required.all (fun s => !javaDevRequired.contains s) = true) :
    roleScore role cfg javaDevSyntheticVector
      < roleScore ("Java Developer") javaDevConfig javaDevSyntheticVector := by
  simp only [ROLE_DEFINITIONS, List.mem_cons, List.not_mem_nil, or_false,
    Prod.mk.injEq] at hmem
  rcases hmem with ⟨h1, h2⟩ | ⟨h1, h2⟩ | ⟨h1, h2⟩ | ⟨h1, h2⟩ | ⟨h1, h2⟩ | ⟨h1, h2⟩ |
    ⟨h1, h2⟩ | ⟨h1, h2⟩ | ⟨h1, h2⟩ | ⟨h1, h2⟩ | ⟨h1, h2⟩ | ⟨h1, h2⟩ | ⟨h1, h2⟩ |
    ⟨h1, h2⟩ | ⟨h1, h2⟩ | ⟨h1, h2⟩ | ⟨h1, h2⟩ | ⟨h1, h2⟩ <;> subst h1 <;> subst h2 <;>
    first
    | exact absurd hdisj (by decide)
    | decide

/-- Witness for C8: `Frontend Developer` shares no skill with
`Java Developer` and scores strictly below it. -/
theorem claim_C8_witness :
    roleScore ("Frontend Developer") frontendConfig javaDevSyntheticVector
      < roleScore ("Java Developer") javaDevConfig javaDevSyntheticVector :=
  claim_C8 ("Frontend Developer") frontendConfig (by decide) (by decide)

/-! ### Claim C7: GitHub username normalisation -/

theorem dropWhile_eq_self_of_all {q : Char → Bool} (l : List Char)
    (h : ∀ c ∈ l, q c = false) : l.dropWhile q = l := by
  cases l with
  | nil => rfl
  | cons a r => simp [List.dropWhile_cons, h a (List.mem_cons_self a r)]

theorem takeWhile_eq_self_of_all {q : Char → Bool} (l : List Char)
    (h : ∀ c ∈ l, q c = true) : l.takeWhile q = l := by
  induction l with
  | nil => rfl
  | cons a r ih =>
    simp only [List.takeWhile_cons, h a (List.mem_cons_self a r), if_true]
    rw [ih fun c hc => h c (List.mem_cons_of_mem a hc)]

/-- Trimming from the right passes through an untouched nonempty middle block. -/
theorem rtrim_concat (q : Char → Bool) (a u rest : List Char) (hu : u ≠ [])
    (huq : ∀ c ∈ u, q c = false) :
    ((a ++ u ++ rest).reverse.dropWhile q).reverse
      = a ++ u ++ (rest.reverse.dropWhile q).reverse := by
  have hur : u.reverse.dropWhile q = u.reverse :=
    dropWhile_eq_self_of_all _ (fun c hc => huq c (List.mem_reverse.1 hc))
  have huremp : u.reverse.isEmpty = false := by
    cases hrev : u.reverse with
    | nil => exact absurd (List.reverse_eq_nil_iff.1 hrev) hu
    | cons c r => rfl
  rw [List.append_assoc, List.reverse_append, List.reverse_append, List.append_assoc]
  rw [List.dropWhile_append]
  by_cases hre : (rest.reverse.dropWhile q).isEmpty
  · rw [if_pos hre, List.dropWhile_append, hur, huremp]
    simp only [Bool.false_eq_true, if_false]
    rw [List.isEmpty_iff] at hre
    rw [hre]
    simp [List.reverse_append]
  · rw [if_neg hre]
    simp [List.reverse_append, List.append_assoc]

/-- Trimming from the right keeps the head of a nonempty list unless the
whole list is trimmed away. -/
theorem rtrim_head (q : Char → Bool) (c : Char) (r : List Char) :
    (((c :: r).reverse.dropWhile q).reverse = [])
      ∨ ∃ r', ((c :: r).reverse.dropWhile q).reverse = c :: r' := by
  rw [show (c :: r).reverse = r.reverse ++ [c] from by simp]
  rw [List.dropWhile_append]
  by_cases hre : (r.reverse.dropWhile q).isEmpty
  · rw [if_pos hre]
    by_cases hc : q c
    · left
      simp [List.dropWhile_cons, hc]
    · right
      exact ⟨[], by simp [List.dropWhile_cons, hc]⟩
  · rw [if_neg hre]
    right
    exact ⟨(r.reverse.dropWhile q).reverse, by simp⟩

theorem rtrimWs_concat (a u rest : List Char) (hu : u ≠ [])
    (hus : ∀ c ∈ u, pyIsSpace c = false) :
    rtrimWs (a ++ u ++ rest) = a ++ u ++ rtrimWs rest :=
  rtrim_concat pyIsSpace a u rest hu hus

theorem rstripSlash_concat (a u rest : List Char) (hu : u ≠ [])
    (husl : ∀ c ∈ u, decide (c = '/') = false) :
    rstripSlash (a ++ u ++ rest) = a ++ u ++ rstripSlash rest :=
  rtrim_concat _ a u rest hu husl

theorem pyStrip_concat (p u rest : List Char) (hpne : p ≠ [])
    (hpns : ∀ c ∈ p, pyIsSpace c = false) (hu : u ≠ [])
    (hus : ∀ c ∈ u, pyIsSpace c = false) :
    pyStrip (p ++ u ++ rest) = p ++ u ++ rtrimWs rest := by
  unfold pyStrip
  have hleft : (p ++ u ++ rest).dropWhile pyIsSpace = p ++ u ++ rest := by
    rw [List.append_assoc, List.dropWhile_append, dropWhile_eq_self_of_all p hpns]
    have hpemp : p.isEmpty = false := by
      cases p with
      | nil => exact absurd rfl hpne
      | cons c r => rfl
    rw [hpemp]
    simp [List.append_assoc]
  rw [hleft]
  exact rtrimWs_concat p u rest hu hus

theorem pyStrip_eq_self (l : List Char) (h : ∀ c ∈ l, pyIsSpace c = false) :
    pyStrip l = l := by
  unfold pyStrip rtrimWs
  rw [dropWhile_eq_self_of_all l h,
    dropWhile_eq_self_of_all _ (fun c hc => h c (List.mem_reverse.1 hc)),
    List.reverse_reverse]

theorem rstripSlash_eq_self (l : List Char) (h : ∀ c ∈ l, decide (c = '/') = false) :
    rstripSlash l = l := by
  unfold rstripSlash
  rw [dropWhile_eq_self_of_all _ (fun c hc => h c (List.mem_reverse.1 hc)),
    List.reverse_reverse]

theorem pyLowerChar_ne_slash (c : Char) (h : c ≠ '/') : pyLowerChar c ≠ '/' := by
  unfold pyLowerChar
  split
  · rename_i hc
    rw [Bool.and_eq_true] at hc
    obtain ⟨hA, hZ⟩ := hc
    have h1 : 65 ≤ c.toNat := by
      have hle := Char.le_def.1 (by exact_mod_cast of_decide_eq_true hA)
      exact_mod_cast hle
    have h2 : c.toNat ≤ 90 := by
      have hle := Char.le_def.1 (by exact_mod_cast of_decide_eq_true hZ)
      exact_mod_cast hle
    intro hEq
    set n := c.toNat with hn
    interval_cases n <;> exact absurd hEq (by decide)
  · exact h

theorem mem_of_isPrefixOf (a b : List Char) (h : a.isPrefixOf b = true) :
    ∀ x ∈ a, x ∈ b := by
  induction a generalizing b with
  | nil => intro x hx; simp at hx
  | cons c r ih =>
    cases b with
    | nil => simp [List.isPrefixOf] at h
    | cons c' r' =>
      simp only [List.isPrefixOf, Bool.and_eq_true, beq_iff_eq] at h
      intro x hx
      rcases List.mem_cons.1 hx with hx | hx
      · rw [hx, h.1]
        exact List.mem_cons_self c' r'
      · exact List.mem_cons_of_mem c' (ih r' h.2 x hx)

theorem isPrefixOf_append_self (a x : List Char) : a.isPrefixOf (a ++ x) = true := by
  induction a with
  | nil => simp [List.isPrefixOf]
  | cons c r ih => simp [List.isPrefixOf, ih]

theorem pyLower_append (a b : List Char) : pyLower (a ++ b) = pyLower a ++ pyLower b :=
  List.map_append pyLowerChar a b

theorem clean_u_bare (u : List Char) (_hu : u ≠ [])
    (huc : ∀ c ∈ u, pyIsSpace c = false ∧ c ≠ '/') :
    _clean_github_username u = u := by
  have hus : ∀ c ∈ u, pyIsSpace c = false := fun c hc => (huc c hc).1
  have husl : ∀ c ∈ u, decide (c = '/') = false := fun c hc => by
    simp [(huc c hc).2]
  have hutw : ∀ c ∈ u, decide (¬c = '/') = true := fun c hc => by
    simp [(huc c hc).2]
  have hfind : ghPrefixes.find? (fun p' => p'.isPrefixOf (pyLower u)) = none := by
    rw [List.find?_eq_none]
    intro pfx hm
    simp only [ghPrefixes, List.mem_cons, List.not_mem_nil, or_false] at hm
    simp only [Bool.not_eq_true]
    by_contra hpre
    rw [Bool.not_eq_false] at hpre
    have hslash : ('/' : Char) ∈ pfx := by
      rcases hm with h | h | h <;> rw [h] <;> decide
    have hmem : ('/' : Char) ∈ pyLower u := mem_of_isPrefixOf _ _ hpre '/' hslash
    obtain ⟨c, hcu, hcl⟩ := List.mem_map.1 hmem
    exact pyLowerChar_ne_slash c (huc c hcu).2 hcl
  unfold _clean_github_username
  simp only []
  rw [pyStrip_eq_self u hus, rstripSlash_eq_self u husl, hfind]
  show pyStrip (u.takeWhile fun c => decide (¬c = '/')) = u
  rw [takeWhile_eq_self_of_all u hutw, pyStrip_eq_self u hus]

/-- C7: for a bare GitHub username `u` (nonempty, containing no whitespace and
no slash), cleaning a full profile URL built from one of the recognised
scheme/host variants, `u`, and an optional trailing-slash-plus-extra-segments
tail yields the same string as cleaning the plain handle, namely `u` itself:
the host is stripped, trailing slashes removed and only the first path
segment kept. -/
theorem claim_C7 (u rest p : List Char) (hp : p ∈ ghPrefixes) (hu : u ≠ [])
    (huc : ∀ c ∈ u, pyIsSpace c = false ∧ c ≠ '/')
    (hrest : rest = [] ∨ ∃ r, rest = '/' :: r) :
    _clean_github_username (p ++ u ++ rest) = _clean_github_username u
      ∧ _clean_github_username u = u := by
  have hus : ∀ c ∈ u, pyIsSpace c = false := fun c hc => (huc c hc).1
  have husl : ∀ c ∈ u, decide (c = '/') = false := fun c hc => by
    simp [(huc c hc).2]
  have hutw : ∀ c ∈ u, decide (¬c = '/') = true := fun c hc => by
    simp [(huc c hc).2]
  have hclean_u := clean_u_bare u hu huc
  refine ⟨?_, hclean_u⟩
  rw [hclean_u]
  have hp3 : p = (("https://github.com/").data) ∨ p = (("http://github.com/").data)
      ∨ p = (("github.com/").data) := by
    rw [ghPrefixes] at hp
    rcases List.mem_cons.1 hp with h | hp2
    · exact Or.inl h
    rcases List.mem_cons.1 hp2 with h | hp3
    · exact Or.inr (Or.inl h)
    rcases List.mem_cons.1 hp3 with h | hp4
    · exact Or.inr (Or.inr h)
    · exact absurd hp4 (List.not_mem_nil p)
  have hpfacts : p ≠ [] ∧ (∀ c ∈ p, pyIsSpace c = false) ∧ pyLower p = p := by
    rcases hp3 with h | h | h <;> rw [h] <;> exact ⟨by decide, by decide, by decide⟩
  obtain ⟨hpne, hpns, hlp⟩ := hpfacts
  have hstep12 : rstripSlash (pyStrip (p ++ u ++ rest))
      = p ++ u ++ rstripSlash (rtrimWs rest) := by
    rw [pyStrip_concat p u rest hpne hpns hu hus,
      rstripSlash_concat p u (rtrimWs rest) hu husl]
  have hshape : rstripSlash (rtrimWs rest) = []
      ∨ ∃ r', rstripSlash (rtrimWs rest) = '/' :: r' := by
    rcases hrest with h | ⟨r, h⟩
    · subst h
      left
      rfl
    · subst h
      rcases rtrim_head pyIsSpace '/' r with h1 | ⟨r1, h1⟩
      · rw [show rtrimWs ('/' :: r) = (('/' :: r).reverse.dropWhile pyIsSpace).reverse
          from rfl, h1]
        left
        rfl
      · rw [show rtrimWs ('/' :: r) = (('/' :: r).reverse.dropWhile pyIsSpace).reverse
          from rfl, h1]
        exact rtrim_head _ '/' r1
  have hself : p.isPrefixOf (pyLower (p ++ u ++ rstripSlash (rtrimWs rest))) = true := by
    rw [List.append_assoc, pyLower_append, hlp]
    exact isPrefixOf_append_self p _
  have hdrop : (p ++ u ++ rstripSlash (rtrimWs rest)).drop p.length
      = u ++ rstripSlash (rtrimWs rest) := by
    rw [List.append_assoc]
    exact List.drop_left p _
  have hstep3 : (match ghPrefixes.find? (fun p' =>
        p'.isPrefixOf (pyLower (p ++ u ++ rstripSlash (rtrimWs rest)))) with
      | some q => (p ++ u ++ rstripSlash (rtrimWs rest)).drop q.length
      | none => p ++ u ++ rstripSlash (rtrimWs rest)) = u ++ rstripSlash (rtrimWs rest) := by
    rcases hp3 with h | h | h
    · subst h
      simp only [ghPrefixes, List.find?, hself]
      exact hdrop
    · subst h
      have hfalse : (("https://github.com/").data).isPrefixOf
          (pyLower ((("http://github.com/").data) ++ u
            ++ rstripSlash (rtrimWs rest))) = false := by
        rw [List.append_assoc, pyLower_append, hlp]
        rw [show (("https://github.com/").data)
            = 'h' :: 't' :: 't' :: 'p' :: 's' :: (("://github.com/").data) from rfl,
          show (("http://github.com/").data)
            = 'h' :: 't' :: 't' :: 'p' :: ':' :: (("//github.com/").data) from rfl]
        simp [List.isPrefixOf, List.cons_append]
      simp only [ghPrefixes, List.find?, hfalse, hself]
      exact hdrop
    · subst h
      have hfalse1 : (("https://github.com/").data).isPrefixOf
          (pyLower ((("github.com/").data) ++ u ++ rstripSlash (rtrimWs rest))) = false := by
        rw [List.append_assoc, pyLower_append, hlp]
        rw [show (("https://github.com/").data)
            = 'h' :: (("ttps://github.com/").data) from rfl,
          show (("github.com/").data) = 'g' :: (("ithub.com/").data) from rfl]
        simp [List.isPrefixOf]
      have hfalse2 : (("http://github.com/").data).isPrefixOf
          (pyLower ((("github.com/").data) ++ u ++ rstripSlash (rtrimWs rest))) = false := by
        rw [List.append_assoc, pyLower_append, hlp]
        rw [show (("http://github.com/").data)
            = 'h' :: (("ttp://github.com/").data) from rfl,
          show (("github.com/").data) = 'g' :: (("ithub.com/").data) from rfl]
        simp [List.isPrefixOf]
      simp only [ghPrefixes, List.find?, hfalse1, hfalse2, hself]
      exact hdrop
  have hstep4 : (u ++ rstripSlash (rtrimWs rest)).takeWhile (fun c => decide (¬c = '/'))
      = u := by
    rw [List.takeWhile_append_of_pos hutw]
    rcases hshape with h | ⟨r', h⟩
    · rw [h]
      simp
    · rw [h]
      simp [List.takeWhile_cons]
  unfold _clean_github_username
  simp only []
  rw [hstep12, hstep3, hstep4, pyStrip_eq_self u hus]

/-- Witness for C7 at a concrete handle, prefix and tail. -/
theorem claim_C7_witness :
    _clean_github_username ((("https://github.com/").data)
        ++ (("AadeshhhGavhane").data) ++ (("/repos/").data))
      = _clean_github_username (("AadeshhhGavhane").data)
      ∧ _clean_github_username (("AadeshhhGavhane").data) = ("AadeshhhGavhane").data :=
  claim_C7 (("AadeshhhGavhane").data) (("/repos/").data) (("https://github.com/").data)
    (by decide) (by decide) (by decide)
    (Or.inr ⟨(("repos/").data), rfl⟩)

/-! ### Claim C5: matcher inversion lemmas -/

theorem flatMap_ne_nil_iff {α β : Type} (l : List α) (f : α → List β) :
    l.flatMap f ≠ [] ↔ ∃ x ∈ l, f x ≠ [] := by
  induction l with
  | nil => simp
  | cons a r ih =>
    simp only [List.flatMap_cons, List.mem_cons]
    constructor
    · intro h
      by_cases ha : f a = []
      · rw [ha, List.nil_append] at h
        obtain ⟨x, hx, hfx⟩ := ih.1 h
        exact ⟨x, Or.inr hx, hfx⟩
      · exact ⟨a, Or.inl rfl, ha⟩
    · rintro ⟨x, hx | hx, hfx⟩
      · subst hx
        intro hcontra
        exact hfx (List.append_eq_nil.1 hcontra).1
      · intro hcontra
        exact (ih.2 ⟨x, hx, hfx⟩) (List.append_eq_nil.1 hcontra).2

theorem seq_ne (a b : Rx) (p : Option Char) (s : List Char) :
    matchEnds (Rx.seq a b) p s ≠ []
      ↔ ∃ pr ∈ matchEnds a p s, matchEnds b pr.1 pr.2 ≠ [] := by
  simp only [matchEnds]
  exact flatMap_ne_nil_iff _ _

theorem bnd_mem (p : Option Char) (s : List Char) (pr : Option Char × List Char)
    (h : pr ∈ matchEnds Rx.bnd p s) : boundary p s = true ∧ pr = (p, s) := by
  simp only [matchEnds] at h
  by_cases hb : boundary p s
  · rw [if_pos hb] at h
    simp only [List.mem_cons, List.not_mem_nil, or_false] at h
    exact ⟨hb, h⟩
  · rw [if_neg hb] at h
    simp at h

theorem nla_mem (r : Rx) (p : Option Char) (s : List Char) (pr : Option Char × List Char)
    (h : pr ∈ matchEnds (Rx.nla r) p s) : matchEnds r p s = [] ∧ pr = (p, s) := by
  simp only [matchEnds] at h
  by_cases hb : matchEnds r p s = []
  · rw [if_pos hb] at h
    simp only [List.mem_cons, List.not_mem_nil, or_false] at h
    exact ⟨hb, h⟩
  · rw [if_neg hb] at h
    simp at h

theorem lit_mem (c : Char) (p : Option Char) (s : List Char) (pr : Option Char × List Char)
    (h : pr ∈ matchEnds (Rx.lit c) p s) : ∃ s', s = c :: s' ∧ pr = (some c, s') := by
  cases s with
  | nil => simp [matchEnds] at h
  | cons a rest =>
    simp only [matchEnds] at h
    by_cases hac : a = c
    · subst hac
      rw [if_pos rfl] at h
      simp only [List.mem_cons, List.not_mem_nil, or_false] at h
      exact ⟨rest, rfl, h⟩
    · rw [if_neg hac] at h
      simp at h

theorem opt_mem (r : Rx) (p : Option Char) (s : List Char) (pr : Option Char × List Char)
    (h : pr ∈ matchEnds (Rx.opt r) p s) : pr ∈ matchEnds r p s ∨ pr = (p, s) := by
  simp only [matchEnds] at h
  rcases List.mem_append.1 h with h | h
  · exact Or.inl h
  · simp only [List.mem_cons, List.not_mem_nil, or_false] at h
    exact Or.inr h

theorem ne_nil_of_isEmpty_false {α : Type} (l : List α) (h : l.isEmpty = false) :
    l ≠ [] := by
  cases l with
  | nil => simp at h
  | cons a r => exact List.cons_ne_nil a r

theorem matchEnds_seq (a b : Rx) (p : Option Char) (s : List Char) :
    matchEnds (Rx.seq a b) p s
      = (matchEnds a p s).flatMap fun pr => matchEnds b pr.1 pr.2 := rfl

theorem matchEnds_lit_self (c : Char) (p : Option Char) (rest : List Char) :
    matchEnds (Rx.lit c) p (c :: rest) = [(some c, rest)] := by
  simp [matchEnds]

theorem matchEnds_lit_ne (c a : Char) (p : Option Char) (rest : List Char)
    (h : a ≠ c) : matchEnds (Rx.lit c) p (a :: rest) = [] := by
  simp [matchEnds, h]

theorem lastP_cons (c : Char) (w : List Char) (prev : Option Char) :
    lastP (c :: w) prev = lastP w (some c) := by
  cases w with
  | nil => rfl
  | cons d w' =>
    rw [show lastP (c :: d :: w') prev
        = (match (d :: w').getLast? with
            | some e => some e
            | none => prev) from by rw [lastP, List.getLast?_cons_cons]]
    cases hgl : (d :: w').getLast? with
    | none => simp at hgl
    | some e => simp [lastP, hgl]

theorem matchEnds_strRx (w : List Char) : ∀ (prev : Option Char) (s : List Char),
    matchEnds (strRx w) prev s
      = if w.isPrefixOf s then [(lastP w prev, s.drop w.length)] else [] := by
  induction w with
  | nil =>
    intro prev s
    simp [strRx, matchEnds, lastP, List.isPrefixOf]
  | cons c w ih =>
    intro prev s
    cases s with
    | nil =>
      simp [strRx, matchEnds, List.isPrefixOf]
    | cons a rest =>
      rw [show strRx (c :: w) = Rx.seq (Rx.lit c) (strRx w) from rfl, matchEnds_seq]
      by_cases hac : a = c
      · subst hac
        rw [matchEnds_lit_self]
        simp only [List.flatMap_cons, List.flatMap_nil, List.append_nil]
        rw [ih (some a) rest]
        simp only [List.isPrefixOf, beq_self_eq_true, Bool.true_and]
        rw [lastP_cons, List.length_cons, List.drop_succ_cons]
      · have hbeq : (c == a) = false := by
          rw [beq_eq_false_iff_ne]
          exact fun hh => hac hh.symm
        rw [matchEnds_lit_ne c a prev rest hac]
        simp only [List.flatMap_nil, List.isPrefixOf, hbeq, Bool.false_and,
          Bool.false_eq_true, if_false]

theorem strRx_mem (w : List Char) (p : Option Char) (s : List Char)
    (pr : Option Char × List Char) (h : pr ∈ matchEnds (strRx w) p s) :
    w.isPrefixOf s = true ∧ pr = (lastP w p, s.drop w.length) := by
  rw [matchEnds_strRx] at h
  by_cases hpre : w.isPrefixOf s
  · rw [if_pos hpre] at h
    simp only [List.mem_cons, List.not_mem_nil, or_false] at h
    exact ⟨hpre, h⟩
  · rw [if_neg hpre] at h
    simp at h

theorem searchAux_sound (r : Rx) : ∀ (s : List Char) (prev : Option Char),
    searchAux r prev s = true →
    ∃ n p', n ≤ s.length ∧ matchEnds r p' (s.drop n) ≠ [] := by
  intro s
  induction s with
  | nil =>
    intro prev h
    simp only [searchAux, Bool.not_eq_true'] at h
    exact ⟨0, prev, Nat.le_refl 0, ne_nil_of_isEmpty_false _ h⟩
  | cons c rest ih =>
    intro prev h
    simp only [searchAux, Bool.or_eq_true, Bool.not_eq_true'] at h
    rcases h with h | h
    · exact ⟨0, prev, Nat.zero_le _, ne_nil_of_isEmpty_false _ h⟩
    · obtain ⟨m, p', hm, hmatch⟩ := ih (some c) h
      exact ⟨m + 1, p', Nat.succ_le_succ hm, by rw [List.drop_succ_cons]; exact hmatch⟩

/-! ### Soundness of the three cross-talk patterns -/

theorem java_match_sound (p' : Option Char) (v : List Char)
    (h : matchEnds (rxs [wb, W ("java"), wb,
      Rx.nla (rxs [ws0, W ("script")])]) p' v ≠ []) :
    (("java").data).isPrefixOf v = true ∧ boundary (some 'a') (v.drop 4) = true := by
  rw [show rxs [wb, W ("java"), wb, Rx.nla (rxs [ws0, W ("script")])]
      = Rx.seq Rx.bnd (Rx.seq (strRx (("java").data)) (Rx.seq Rx.bnd
          (Rx.seq (Rx.nla (rxs [ws0, W ("script")])) Rx.eps))) from rfl] at h
  obtain ⟨pr1, hmem1, h1⟩ := (seq_ne _ _ _ _).1 h
  obtain ⟨_, hpr1⟩ := bnd_mem _ _ _ hmem1
  subst hpr1
  obtain ⟨pr2, hmem2, h2⟩ := (seq_ne _ _ _ _).1 h1
  obtain ⟨hpre, hpr2⟩ := strRx_mem _ _ _ _ hmem2
  subst hpr2
  obtain ⟨pr3, hmem3, _⟩ := (seq_ne _ _ _ _).1 h2
  obtain ⟨hb2, _⟩ := bnd_mem _ _ _ hmem3
  rw [show lastP (("java").data) p' = some 'a' from rfl] at hb2
  exact ⟨hpre, by simpa using hb2⟩

theorem c_match_sound (p' : Option Char) (v : List Char)
    (h : matchEnds (rxs [wb, W ("c"), wb,
      Rx.nla (altList [W ("++"), W ("#"), W ("sharp")])]) p' v ≠ []) :
    (("c").data).isPrefixOf v = true
      ∧ matchEnds (altList [W ("++"), W ("#"), W ("sharp")]) (some 'c') (v.drop 1) = [] := by
  rw [show rxs [wb, W ("c"), wb, Rx.nla (altList [W ("++"), W ("#"), W ("sharp")])]
      = Rx.seq Rx.bnd (Rx.seq (strRx (("c").data)) (Rx.seq Rx.bnd
          (Rx.seq (Rx.nla (altList [W ("++"), W ("#"), W ("sharp")])) Rx.eps))) from rfl] at h
  obtain ⟨pr1, hmem1, h1⟩ := (seq_ne _ _ _ _).1 h
  obtain ⟨_, hpr1⟩ := bnd_mem _ _ _ hmem1
  subst hpr1
  obtain ⟨pr2, hmem2, h2⟩ := (seq_ne _ _ _ _).1 h1
  obtain ⟨hpre, hpr2⟩ := strRx_mem _ _ _ _ hmem2
  subst hpr2
  obtain ⟨pr3, hmem3, h3⟩ := (seq_ne _ _ _ _).1 h2
  obtain ⟨_, hpr3⟩ := bnd_mem _ _ _ hmem3
  subst hpr3
  obtain ⟨pr4, hmem4, _⟩ := (seq_ne _ _ _ _).1 h3
  obtain ⟨hnla, _⟩ := nla_mem _ _ _ _ hmem4
  rw [show lastP (("c").data) p' = some 'c' from rfl] at hnla
  exact ⟨hpre, by simpa using hnla⟩

theorem react_js_sound (p' : Option Char) (v : List Char)
    (h : matchEnds (rxs [wb, W ("react"), Rx.opt (Rx.lit '.'), W ("js"), wb]) p' v ≠ []) :
    (("react").data).isPrefixOf v = true
      ∧ ((∃ s', v.drop 5 = '.' :: s') ∨ (("js").data).isPrefixOf (v.drop 5) = true) := by
  rw [show rxs [wb, W ("react"), Rx.opt (Rx.lit '.'), W ("js"), wb]
      = Rx.seq Rx.bnd (Rx.seq (strRx (("react").data)) (Rx.seq (Rx.opt (Rx.lit '.'))
          (Rx.seq (strRx (("js").data)) (Rx.seq Rx.bnd Rx.eps)))) from rfl] at h
  obtain ⟨pr1, hmem1, h1⟩ := (seq_ne _ _ _ _).1 h
  obtain ⟨_, hpr1⟩ := bnd_mem _ _ _ hmem1
  subst hpr1
  obtain ⟨pr2, hmem2, h2⟩ := (seq_ne _ _ _ _).1 h1
  obtain ⟨hpre, hpr2⟩ := strRx_mem _ _ _ _ hmem2
  subst hpr2
  refine ⟨hpre, ?_⟩
  obtain ⟨pr3, hmem3, h3⟩ := (seq_ne _ _ _ _).1 h2
  rcases opt_mem _ _ _ _ hmem3 with hdot | hskip
  · obtain ⟨s', hs', _⟩ := lit_mem _ _ _ _ hdot
    exact Or.inl ⟨s', by simpa using hs'⟩
  · subst hskip
    obtain ⟨pr4, hmem4, _⟩ := (seq_ne _ _ _ _).1 h3
    obtain ⟨hjs, _⟩ := strRx_mem _ _ _ _ hmem4
    exact Or.inr (by simpa using hjs)

theorem react_native_sound (p' : Option Char) (v : List Char)
    (h : matchEnds (rxs [wb, W ("react"), wb, Rx.nla (rxs [ws0, W ("native")])]) p' v ≠ []) :
    (("react").data).isPrefixOf v = true
      ∧ matchEnds (rxs [ws0, W ("native")]) (some 't') (v.drop 5) = [] := by
  rw [show rxs [wb, W ("react"), wb, Rx.nla (rxs [ws0, W ("native")])]
      = Rx.seq Rx.bnd (Rx.seq (strRx (("react").data)) (Rx.seq Rx.bnd
          (Rx.seq (Rx.nla (rxs [ws0, W ("native")])) Rx.eps))) from rfl] at h
  obtain ⟨pr1, hmem1, h1⟩ := (seq_ne _ _ _ _).1 h
  obtain ⟨_, hpr1⟩ := bnd_mem _ _ _ hmem1
  subst hpr1
  obtain ⟨pr2, hmem2, h2⟩ := (seq_ne _ _ _ _).1 h1
  obtain ⟨hpre, hpr2⟩ := strRx_mem _ _ _ _ hmem2
  subst hpr2
  obtain ⟨pr3, hmem3, h3⟩ := (seq_ne _ _ _ _).1 h2
  obtain ⟨_, hpr3⟩ := bnd_mem _ _ _ hmem3
  subst hpr3
  obtain ⟨pr4, hmem4, _⟩ := (seq_ne _ _ _ _).1 h3
  obtain ⟨hnla, _⟩ := nla_mem _ _ _ _ hmem4
  rw [show lastP (("react").data) p' = some 't' from rfl] at hnla
  exact ⟨hpre, by simpa using hnla⟩

/-- Completeness of the lookahead `\s*native` against `wsStarNative`. -/
theorem wsStarNative_matches (l : List Char) (p : Option Char)
    (h : wsStarNative l = true) :
    matchEnds (rxs [ws0, W ("native")]) p l ≠ [] := by
  induction l generalizing p with
  | nil => simp [wsStarNative] at h
  | cons c r ih =>
    have hT : rxs [ws0, W ("native")]
        = Rx.seq (Rx.starCls wsChars) (Rx.seq (strRx (("native").data)) Rx.eps) := rfl
    simp only [wsStarNative, Bool.or_eq_true, Bool.and_eq_true, decide_eq_true_eq] at h
    rcases h with h | ⟨hc, hrec⟩
    · -- `native` starts right here: use the zero-consumption split.
      rw [hT, seq_ne]
      refine ⟨(p, c :: r), ?_, ?_⟩
      · show (p, c :: r) ∈ matchEnds (Rx.starCls wsChars) p (c :: r)
        simp only [matchEnds, clsSplits]
        by_cases hcw : c ∈ wsChars
        · rw [if_pos hcw]
          exact List.mem_append_right _ (List.mem_cons_self _ _)
        · rw [if_neg hcw]
          exact List.mem_cons_self _ _
      · rw [seq_ne]
        refine ⟨(lastP (("native").data) p, (c :: r).drop (("native").data).length), ?_, ?_⟩
        · rw [matchEnds_strRx, if_pos h]
          exact List.mem_cons_self _ _
        · simp [matchEnds]
    · -- consume the whitespace character and recurse.
      have hrest := ih (some c) hrec
      rw [hT, seq_ne] at hrest ⊢
      obtain ⟨pr, hpr, hne⟩ := hrest
      refine ⟨pr, ?_, hne⟩
      show pr ∈ matchEnds (Rx.starCls wsChars) p (c :: r)
      have hpr' : pr ∈ matchEnds (Rx.starCls wsChars) (some c) r := hpr
      simp only [matchEnds, clsSplits] at hpr' ⊢
      rw [if_pos (by exact hc)]
      exact List.mem_append_left _ hpr'

theorem lt_length_of_prefix_drop (w s : List Char) (n : Nat) (hw : w ≠ [])
    (h : w.isPrefixOf (s.drop n) = true) : n < s.length := by
  by_contra hge
  push_neg at hge
  rw [List.drop_eq_nil_of_le hge] at h
  cases w with
  | nil => exact hw rfl
  | cons c r => simp [List.isPrefixOf] at h

theorem head_of_prefix (c : Char) (w s : List Char)
    (h : (c :: w).isPrefixOf s = true) :
    ∃ rest, s = c :: rest ∧ w.isPrefixOf rest = true := by
  cases s with
  | nil => simp [List.isPrefixOf] at h
  | cons a rest =>
    simp only [List.isPrefixOf, Bool.and_eq_true, beq_iff_eq] at h
    exact ⟨rest, by rw [h.1], h.2⟩

theorem wsThenNative_dest (l : List Char) (h : wsThenNative l = true) :
    ∃ c rest, l = c :: rest ∧ c ∈ wsChars ∧ wsStarNative rest = true := by
  cases l with
  | nil => simp [wsThenNative] at h
  | cons c rest =>
    simp only [wsThenNative, Bool.and_eq_true, decide_eq_true_eq] at h
    exact ⟨c, rest, rfl, h.1, h.2⟩

theorem matchEnds_altList3 (r1 r2 r3 : Rx) (p : Option Char) (l : List Char) :
    matchEnds (altList [r1, r2, r3]) p l
      = matchEnds r1 p l ++ (matchEnds r2 p l ++ (matchEnds r3 p l ++ [])) := by
  simp [altList, rxFail, matchEnds]

/-- C5: no cross-talk between closely named technologies.  If every `java`
occurrence in the lowercased text is part of `javascript`, the `Java` flag
stays 0; if every `c` occurrence is part of `c++` or `c#`, the `C` flag stays
0; if every `react` occurrence is part of a spaced `react native`, the plain
`React` flag stays 0; and co-occurrence with a separate plain mention is
acceptable: `react native and react` does set `React`. -/
theorem claim_C5 (t : List Char) :
    (javaShield (pyLower t) → getD (extract_resume_features t) ("Java") = 0)
    ∧ (cShield (pyLower t) → getD (extract_resume_features t) ("C") = 0)
    ∧ (reactShield (pyLower t) → getD (extract_resume_features t) ("React") = 0)
    ∧ getD (extract_resume_features (("react native and react").data)) ("React") = 1 := by
  refine ⟨?_, ?_, ?_, by decide⟩
  · -- Java
    intro hs
    rw [getD_extract_resume_skill t ("Java") _ rfl rfl rfl]
    split
    · rfl
    have hfalse : reSearch (rxs [wb, W ("java"), wb,
        Rx.nla (rxs [ws0, W ("script")])]) (pyLower t) = false := by
      by_contra hx
      rw [Bool.not_eq_false] at hx
      obtain ⟨n, p', _, hne⟩ := searchAux_sound _ _ _ hx
      obtain ⟨hpre, hb⟩ := java_match_sound p' _ hne
      have hlen : n < (pyLower t).length :=
        lt_length_of_prefix_drop _ _ _ (by decide) hpre
      have hscript := hs n hlen hpre
      rw [List.drop_drop] at hb
      obtain ⟨rest, hrest, _⟩ := head_of_prefix 's' _ _ hscript
      rw [hrest] at hb
      have hbf : boundary (some 'a') ('s' :: rest) = false := by
        simp only [boundary]
        decide
      rw [hbf] at hb
      cases hb
    simp only [List.any_cons, List.any_nil, Bool.or_false, hfalse]
    rfl
  · -- C
    intro hs
    rw [getD_extract_resume_skill t ("C") _ rfl rfl rfl]
    split
    · rfl
    have hfalse : reSearch (rxs [wb, W ("c"), wb,
        Rx.nla (altList [W ("++"), W ("#"), W ("sharp")])]) (pyLower t) = false := by
      by_contra hx
      rw [Bool.not_eq_false] at hx
      obtain ⟨n, p', _, hne⟩ := searchAux_sound _ _ _ hx
      obtain ⟨hpre, hnla⟩ := c_match_sound p' _ hne
      have hlen : n < (pyLower t).length :=
        lt_length_of_prefix_drop _ _ _ (by decide) hpre
      have hpp := hs n hlen hpre
      rw [List.drop_drop] at hnla
      have hne2 : matchEnds (altList [W ("++"), W ("#"), W ("sharp")]) (some 'c')
          ((pyLower t).drop (n + 1)) ≠ [] := by
        rw [matchEnds_altList3]
        rcases hpp with h2 | h2
        · rw [show W ("++") = strRx (("++").data) from rfl, matchEnds_strRx, if_pos h2]
          simp
        · rw [show W ("#") = strRx (("#").data) from rfl, matchEnds_strRx, if_pos h2]
          simp
      exact hne2 hnla
    simp only [List.any_cons, List.any_nil, Bool.or_false, hfalse]
    rfl
  · -- React
    intro hs
    rw [getD_extract_resume_skill t ("React") _ rfl rfl rfl]
    split
    · rfl
    have hfalse1 : reSearch (rxs [wb, W ("react"), Rx.opt (Rx.lit '.'), W ("js"), wb])
        (pyLower t) = false := by
      by_contra hx
      rw [Bool.not_eq_false] at hx
      obtain ⟨n, p', _, hne⟩ := searchAux_sound _ _ _ hx
      obtain ⟨hpre, hnext⟩ := react_js_sound p' _ hne
      have hlen : n < (pyLower t).length :=
        lt_length_of_prefix_drop _ _ _ (by decide) hpre
      have hwn := hs n hlen hpre
      rw [List.drop_drop] at hnext
      obtain ⟨c, rest, hcr, hcw, _⟩ := wsThenNative_dest _ hwn
      rcases hnext with ⟨s', hs'⟩ | hjs
      · rw [hcr] at hs'
        have hc : c = '.' := (List.cons_eq_cons.1 hs').1
        rw [hc] at hcw
        exact absurd hcw (by decide)
      · rw [hcr] at hjs
        obtain ⟨rest2, hrest2, _⟩ := head_of_prefix 'j' _ _ hjs
        have hc : c = 'j' := (List.cons_eq_cons.1 hrest2).1
        rw [hc] at hcw
        exact absurd hcw (by decide)
    have hfalse2 : reSearch (rxs [wb, W ("react"), wb, Rx.nla (rxs [ws0, W ("native")])])
        (pyLower t) = false := by
      by_contra hx
      rw [Bool.not_eq_false] at hx
      obtain ⟨n, p', _, hne⟩ := searchAux_sound _ _ _ hx
      obtain ⟨hpre, hnla⟩ := react_native_sound p' _ hne
      have hlen : n < (pyLower t).length :=
        lt_length_of_prefix_drop _ _ _ (by decide) hpre
      have hwn := hs n hlen hpre
      rw [List.drop_drop] at hnla
      obtain ⟨c, rest, hcr, hcw, hstar⟩ := wsThenNative_dest _ hwn
      have hsn : wsStarNative ((pyLower t).drop (n + 5)) = true := by
        rw [hcr]
        simp only [wsStarNative, Bool.or_eq_true, Bool.and_eq_true, decide_eq_true_eq]
        exact Or.inr ⟨hcw, hstar⟩
      exact wsStarNative_matches _ (some 't') hsn hnla
    simp only [List.any_cons, List.any_nil, Bool.or_false, hfalse1, hfalse2]
    rfl

/-- Witness for C5: the shields hold at `javascript`, `c++ and c#` and
`react native`, and the corresponding flags are 0 there. -/
theorem claim_C5_witness :
    getD (extract_resume_features (("javascript").data)) ("Java") = 0
    ∧ getD (extract_resume_features (("c++ and c#").data)) ("C") = 0
    ∧ getD (extract_resume_features (("react native").data)) ("React") = 0 :=
  ⟨(claim_C5 (("javascript").data)).1 (by decide),
   (claim_C5 (("c++ and c#").data)).2.1 (by decide),
   (claim_C5 (("react native").data)).2.2.1 (by decide)⟩

end HireReady
